import Mathlib

/-!
Verification development for the `mev-cfg` repository: a shallow embedding of
the trace-ingestion, per-contract CFG construction and global transaction
graph composition code, together with theorems settling the specification
claims.  PCs and addresses are modelled as `Nat`; Rust panics are modelled by
`Option`-returning functions (`none` = panic); hash sets are modelled as
deduplicated lists.
-/

set_option maxHeartbeats 1000000

namespace MevCfg

/-! ## Trace model (src/cfg_gen/trace.rs) -/

/-- `TraceStep` from trace.rs.  `address` models the `HashMap<String, u8>`
side-channel field as an association list; `storage` likewise models
`HashMap<String, String>`. -/
structure TraceStep where
  pc : Option Nat
  op : Option String
  gas : Option Nat
  gas_cost : Option Nat
  depth : Option Nat
  error : Option String
  stack : Option (List String)
  memory : Option (List String)
  storage : Option (List (String × String))
  address : Option (List (String × Nat))
deriving Repr, DecidableEq

/-- First-match association-list lookup, modelling `HashMap::get` (keys of the
maps we model are distinct). -/
def lookupStr (k : String) : List (String × Nat) → Option Nat
  | [] => none
  | (k', v) :: rest => if k' = k then some v else lookupStr k rest

/-- The byte list assembled by `TraceStep::address_hex`: for `i` in
`0..map.len()`, look up key `i.to_string()` and keep the hits. -/
def TraceStep.addressBytes (s : TraceStep) : Option (List Nat) :=
  s.address.map (fun m => (List.range m.length).filterMap (fun i => lookupStr (toString i) m))

/-- Big-endian byte-fold giving the numeric value of an H160. -/
def bytesToNat (bs : List Nat) : Nat := bs.foldl (fun acc b => acc * 256 + b % 256) 0

/-- `TraceStep::get_h160_address`: hex-encode the assembled bytes and parse as
`H160`.  `H160::from_str` succeeds exactly when the hex string holds 20 bytes,
so the composition succeeds iff the assembled byte list has length 20. -/
def TraceStep.get_h160_address (s : TraceStep) : Option Nat :=
  s.addressBytes.bind (fun bs => if bs.length = 20 then some (bytesToNat bs) else none)

/-- `TraceStep::is_contract_call`. -/
def TraceStep.is_contract_call (s : TraceStep) : Bool :=
  match s.op with
  | some o => o = "CALL" || o = "DELEGATECALL" || o = "STATICCALL" || o = "CALLCODE"
  | none => false

/-- `TraceStep::get_call_type` (clones the `op` field). -/
def TraceStep.get_call_type (s : TraceStep) : Option String := s.op

/-- `CallEdge` from trace.rs. -/
structure CallEdge where
  from_addr : Nat
  from_pc : Nat
  to_addr : Nat
  call_type : String
deriving Repr, DecidableEq

/-- Body of one iteration of the scan in `extract_call_edges`: the edge pushed
for the adjacent pair `(cur, next)`, if any. -/
def mkCallEdge (cur next : TraceStep) : Option CallEdge :=
  if cur.is_contract_call then
    match cur.get_h160_address, cur.pc, cur.get_call_type with
    | some fa, some fp, some ct =>
      match next.get_h160_address with
      | some ta => some ⟨fa, fp, ta, ct⟩
      | none => none
    | _, _, _ => none
  else none

/-- The `while i < steps.len() - 1` scan of `extract_call_edges`, processing
`steps[i]` and `steps[i+1]` at each index. -/
def extractCallEdgesGo : List TraceStep → List CallEdge
  | a :: b :: rest => (mkCallEdge a b).toList ++ extractCallEdgesGo (b :: rest)
  | _ => []

/-- `extract_call_edges`.  On an empty list, `steps.len() - 1` underflows and
the subsequent indexing panics (modelled as `none`); otherwise the scan runs
to completion. -/
def extract_call_edges (steps : List TraceStep) : Option (List CallEdge) :=
  if steps.isEmpty then none else some (extractCallEdgesGo steps)

/-- `extract_contract_addresses` (HashSet modelled as deduplicated list). -/
def extract_contract_addresses (steps : List TraceStep) : List Nat :=
  (steps.filterMap (fun s => s.get_h160_address)).dedup

/-- `filter_steps_by_address`. -/
def filter_steps_by_address (steps : List TraceStep) (a : Nat) : List TraceStep :=
  steps.filter (fun s => s.get_h160_address = some a)

/-- `get_executed_pcs` (HashSet modelled as deduplicated list). -/
def get_executed_pcs (steps : List TraceStep) : List Nat :=
  (steps.filterMap (fun s => s.pc)).dedup

/-- The trace-level fields of `TransactionAnalyzer` populated by
`TransactionAnalyzer::new` (the graph fields start empty). -/
structure TransactionAnalyzerInit where
  trace_steps : List TraceStep
  contract_addresses : List Nat
  call_edges : List CallEdge
deriving Repr, DecidableEq

/-- `TransactionAnalyzer::new`: collects contract addresses, then extracts
call edges (which panics on an empty trace). -/
def TransactionAnalyzer.new (steps : List TraceStep) : Option TransactionAnalyzerInit :=
  (extract_call_edges steps).map
    (fun es => ⟨steps, extract_contract_addresses steps, es⟩)

/-! Concrete trace steps used in witnesses and counterexamples. -/

/-- A 20-byte zero address in the side-channel `HashMap<String, u8>` shape. -/
def addrMap20 : List (String × Nat) := (List.range 20).map (fun i => (toString i, 0))

/-- A `CALL` step at pc 5 executing at the zero address. -/
def stepCall5 : TraceStep :=
  { pc := some 5, op := some "CALL", gas := none, gas_cost := none, depth := none,
    error := none, stack := none, memory := none, storage := none,
    address := some addrMap20 }

/-- A follow-up step whose observed address is the same zero address. -/
def stepNextSameAddr : TraceStep :=
  { pc := some 0, op := some "PUSH1", gas := none, gas_cost := none, depth := none,
    error := none, stack := none, memory := none, storage := none,
    address := some addrMap20 }

/-- The amended C3 per-pair rule, written from the claim's words: emit an edge
when step i's opcode is one of the four call opcodes, both steps carry an
observed (parseable) address and step i carries a pc — with no requirement
that the two adjacent addresses differ. -/
def callEdgeSpecAmended (p : TraceStep × TraceStep) : Option CallEdge :=
  match p.1.op, p.1.get_h160_address, p.1.pc, p.2.get_h160_address with
  | some k, some fa, some fp, some ta =>
    if k = "CALL" ∨ k = "DELEGATECALL" ∨ k = "STATICCALL" ∨ k = "CALLCODE"
    then some ⟨fa, fp, ta, k⟩ else none
  | _, _, _, _ => none

/-! ## Instruction blocks and opcode metadata

`src/cfg_gen/dasm.rs` and `src/cfg_gen/mod.rs` are not in the source tree
(only their users are), so the data they export is modelled from the spec. -/

/-- Modelled from the spec: `InstructionBlock` of the missing dasm module
(spec §3, "Basic block" and "StackInfo").  `ops` is the ordered sequence of
`(pc, opcode_byte, optional push immediate)` triples; `push_used_for_jump` is
the single `StackInfo` field the CFG builder reads (flattened here);
`indirect_jump` carries an opaque symbol id. -/
structure InstructionBlock where
  start_pc : Nat
  end_pc : Nat
  ops : List (Nat × Nat × Option Nat)
  push_used_for_jump : Option Nat
  indirect_jump : Option Nat
deriving Repr, DecidableEq

/-- Modelled from the spec: `BLOCK_ENDERS_U8` of the missing cfg_gen module
(spec §3: STOP, JUMP, JUMPI, RETURN, REVERT, INVALID, SELFDESTRUCT). -/
def BLOCK_ENDERS_U8 : List Nat := [0x00, 0x56, 0x57, 0xF3, 0xFD, 0xFE, 0xFF]

/-- Modelled from the spec: whether `opcode(b).name != "unknown"` holds in the
opcode table of the missing cfg_gen module, i.e. whether byte `b` is an
assigned EVM opcode. -/
def isKnownOpcode (b : Nat) : Bool :=
  (b ≤ 0x0b) || (0x10 ≤ b && b ≤ 0x1d) || b = 0x20 || (0x30 ≤ b && b ≤ 0x3f) ||
    (0x40 ≤ b && b ≤ 0x48) || (0x50 ≤ b && b ≤ 0x5b) || b = 0x5f ||
    (0x60 ≤ b && b ≤ 0x9f) || (0xa0 ≤ b && b ≤ 0xa4) || (0xf0 ≤ b && b ≤ 0xf5) ||
    b = 0xfa || b = 0xfd || b = 0xfe || b = 0xff

/-! ## CFG graph model (src/cfg_gen/cfg_graph.rs) -/

/-- The `Edges` labels of the per-contract CFG. -/
inductive Edges where
  | Jump
  | ConditionTrue
  | ConditionFalse
  | SymbolicJump
deriving Repr, DecidableEq

/-- The `Debug` rendering of `Edges` (used by the analyzer as edge labels). -/
def Edges.debugStr : Edges → String
  | .Jump => ""
  | .ConditionTrue => "True"
  | .ConditionFalse => "False"
  | .SymbolicJump => "Symbolic"

/-- petgraph `GraphMap<(u16, u16), Edges, Directed>`: a node set and at most
one labelled edge per ordered node pair. -/
structure CFGDag where
  nodes : List (Nat × Nat)
  edges : List ((Nat × Nat) × (Nat × Nat) × Edges)
deriving Repr, DecidableEq

def insertNode (n : Nat × Nat) (ns : List (Nat × Nat)) : List (Nat × Nat) :=
  if n ∈ ns then ns else ns ++ [n]

/-- `GraphMap::add_node` (a no-op when the node is already present). -/
def CFGDag.add_node (g : CFGDag) (n : Nat × Nat) : CFGDag :=
  { g with nodes := insertNode n g.nodes }

/-- `GraphMap::add_edge`: inserts missing endpoint nodes and keeps at most one
edge per ordered node pair, replacing the weight of an existing `a → b`
edge. -/
def CFGDag.add_edge (g : CFGDag) (a b : Nat × Nat) (w : Edges) : CFGDag :=
  { nodes := insertNode b (insertNode a g.nodes),
    edges := g.edges.filter (fun e => decide (¬(e.1 = a ∧ e.2.1 = b))) ++ [(a, b, w)] }

/-- `edges_directed(n, Incoming).count()` (an absent node yields an empty
iterator, hence 0). -/
def CFGDag.incomingCount (g : CFGDag) (n : Nat × Nat) : Nat :=
  (g.edges.filter (fun e => decide (e.2.1 = n))).length

/-- `GraphMap::remove_node` (a no-op on an absent node): removes the node and
every incident edge. -/
def CFGDag.remove_node (g : CFGDag) (n : Nat × Nat) : CFGDag :=
  { nodes := g.nodes.filter (fun m => decide (m ≠ n)),
    edges := g.edges.filter (fun e => decide (e.1 ≠ n ∧ e.2.1 ≠ n)) }

/-- The `CFGRunner` state. -/
structure CFGState where
  cfg_dag : CFGDag
  last_node : Option (Nat × Nat)
  jumpi_edge : Option Edges
  bytecode : List Nat
  map_to_instructionblock : List ((Nat × Nat) × InstructionBlock)
  executed_pcs : Option (List Nat)
deriving Repr, DecidableEq

/-- `CFGRunner::get_node_from_pc`: the first block of the map (BTreeMap key
order) holding an instruction whose pc equals `pc`; panics (`none`) when no
block contains the pc. -/
def get_node_from_pc (map : List ((Nat × Nat) × InstructionBlock)) (pc : Nat) :
    Option (Nat × Nat) :=
  (map.find? (fun kb => kb.2.ops.any (fun o => decide (o.1 = pc)))).map
    (fun kb => (kb.2.start_pc, kb.2.end_pc))

/-- The `last_pc_total` computation of `form_basic_connections`:
`.map(end_pc).max().unwrap()` — panics (`none`) on an empty map. -/
def lastPcTotal (map : List ((Nat × Nat) × InstructionBlock)) : Option Nat :=
  (map.map (fun kb => kb.2.end_pc)).max?

/-- Case 1 of `form_basic_connections` (Jumpi false): when the block ends in
`JUMPI` and `end_pc + 1 < last_pc_total`, add a `ConditionFalse` edge to the
node found for pc `end_pc + 1` (`none` when the lookup panics). -/
def jumpiFalseStep (map : List ((Nat × Nat) × InstructionBlock)) (last_pc_total : Nat)
    (src : Nat × Nat) (end_pc c : Nat) (g : CFGDag) : Option CFGDag :=
  if c = 0x57 then
    if end_pc + 1 ≥ last_pc_total then some g
    else (get_node_from_pc map (end_pc + 1)).map
      (fun tn => g.add_edge src tn Edges.ConditionFalse)
  else some g

/-- Cases 2 and 3 of `form_basic_connections` (direct Jumpi true and direct
Jump): when the block has no indirect jump and a direct push value, add the
`ConditionTrue` (for `JUMPI`) or `Jump` (for `JUMP`) edge to the node found
for the pushed target; `none` models the `parse::<u16>().unwrap()` panic when
the push value exceeds `u16` and the `get_node_from_pc` panic. -/
def directJumpStep (map : List ((Nat × Nat) × InstructionBlock)) (src : Nat × Nat)
    (c : Nat) (ij pv : Option Nat) (g : CFGDag) : Option CFGDag :=
  match ij, pv with
  | none, some v =>
    (if c = 0x57 then
        (if v < 65536 then some v else none).bind (fun t =>
          (get_node_from_pc map t).map (fun tn => g.add_edge src tn Edges.ConditionTrue))
      else some g).bind (fun g2 =>
      if c = 0x56 then
        (if v < 65536 then some v else none).bind (fun t =>
          (get_node_from_pc map t).map (fun tn => g2.add_edge src tn Edges.Jump))
      else some g2)
  | _, _ => some g

/-- Case 4 of `form_basic_connections` (block ender is a basic instruction):
when the last opcode is a known non-ender and `end_pc + 1 < last_pc_total`,
add a `Jump` edge to the node found for pc `end_pc + 1`. -/
def fallthroughStep (map : List ((Nat × Nat) × InstructionBlock)) (last_pc_total : Nat)
    (src : Nat × Nat) (end_pc c : Nat) (g : CFGDag) : Option CFGDag :=
  if ¬(c ∈ BLOCK_ENDERS_U8) ∧ isKnownOpcode c then
    if end_pc + 1 ≥ last_pc_total then some g
    else (get_node_from_pc map (end_pc + 1)).map (fun tn => g.add_edge src tn Edges.Jump)
  else some g

/-- One iteration of the block loop of `form_basic_connections`; `none`
models a panic (`ops.last().unwrap()` on an empty block, or a panic inside
one of the three cases). -/
def processBlockConnections (map : List ((Nat × Nat) × InstructionBlock))
    (last_pc_total : Nat) (g : CFGDag) (kb : (Nat × Nat) × InstructionBlock) :
    Option CFGDag :=
  match kb.2.ops.getLast? with
  | none => none
  | some last_op =>
    (jumpiFalseStep map last_pc_total (kb.2.start_pc, kb.2.end_pc) kb.2.end_pc
        last_op.2.1 g).bind (fun g1 =>
      (directJumpStep map (kb.2.start_pc, kb.2.end_pc) last_op.2.1
          kb.2.indirect_jump kb.2.push_used_for_jump g1).bind (fun g3 =>
        fallthroughStep map last_pc_total (kb.2.start_pc, kb.2.end_pc) kb.2.end_pc
          last_op.2.1 g3))

/-- `CFGRunner::form_basic_connections`: computes `last_pc_total`, then runs
the block loop over the instruction-block map, threading the graph. -/
def form_basic_connections (st : CFGState) : Option CFGDag := do
  let last_pc_total ← lastPcTotal st.map_to_instructionblock
  st.map_to_instructionblock.foldlM
    (processBlockConnections st.map_to_instructionblock last_pc_total) st.cfg_dag

/-- The per-block test of `remove_unreachable_instruction_blocks`: a block
with zero incoming edges is slated for removal when its first opcode
(`ops[0]` — a panic on an empty block, modelled as `none`) is not `JUMPDEST`
and its `start_pc` is not 0. -/
def shouldRemoveBlock (g : CFGDag) (blk : InstructionBlock) : Option Bool :=
  if g.incomingCount (blk.start_pc, blk.end_pc) = 0 then
    match blk.ops.head? with
    | none => none
    | some op0 => some (decide (op0.2.1 ≠ 0x5b ∧ blk.start_pc ≠ 0))
  else some false

/-- One step of the `to_remove` collection scan of
`remove_unreachable_instruction_blocks`. -/
def toRemoveStep (g : CFGDag) (acc : List (Nat × Nat)) (kb : (Nat × Nat) × InstructionBlock) :
    Option (List (Nat × Nat)) := do
  let b ← shouldRemoveBlock g kb.2
  pure (if b then acc ++ [(kb.2.start_pc, kb.2.end_pc)] else acc)

/-- `CFGRunner::remove_unreachable_instruction_blocks`: collects the blocks to
remove in one scan of the map (against the unmodified graph), then removes
those nodes from the graph.  Only `cfg_dag` is modified. -/
def remove_unreachable_instruction_blocks (st : CFGState) : Option CFGState := do
  let to_remove ← st.map_to_instructionblock.foldlM (toRemoveStep st.cfg_dag)
    ([] : List (Nat × Nat))
  pure { st with cfg_dag := to_remove.foldl (fun g n => g.remove_node n) st.cfg_dag }

/-- The node keys emitted by `cfg_dot_str_highlighted_only`: every entry of
the instruction-block map whose key `start_pc` is in the executed-PC set (the
graph is not consulted for node emission). -/
def cfg_dot_highlighted_node_keys (st : CFGState) : List (Nat × Nat) :=
  match st.executed_pcs with
  | none => []
  | some pcs =>
    (st.map_to_instructionblock.filter (fun kb => decide (kb.1.1 ∈ pcs))).map (fun kb => kb.1)

/-- The edge keys emitted by `cfg_dot_str_highlighted_only`: graph edges whose
two endpoint `start_pc`s are both in the executed-PC set. -/
def cfg_dot_highlighted_edge_keys (st : CFGState) : List ((Nat × Nat) × (Nat × Nat)) :=
  match st.executed_pcs with
  | none => []
  | some pcs =>
    (st.cfg_dag.edges.filter
      (fun e => decide (e.1.1 ∈ pcs) && decide (e.2.1.1 ∈ pcs))).map (fun e => (e.1, e.2.1))


/-- The pcs that the block loop of `form_basic_connections` must resolve via
`get_node_from_pc` for a given block: the fall-through pc of a `JUMPI`
(case 1), the u16-parseable direct push target of a direct `JUMPI`/`JUMP`
(cases 2-3), and the fall-through pc of a known non-ender (case 4). -/
def demandedTargets (last_pc_total : Nat) (kb : (Nat × Nat) × InstructionBlock) : List Nat :=
  match kb.2.ops.getLast? with
  | none => []
  | some lo =>
    (if lo.2.1 = 0x57 ∧ kb.2.end_pc + 1 < last_pc_total then [kb.2.end_pc + 1] else []) ++
      (match kb.2.indirect_jump, kb.2.push_used_for_jump with
       | none, some v => if (lo.2.1 = 0x57 ∨ lo.2.1 = 0x56) ∧ v < 65536 then [v] else []
       | _, _ => []) ++
      (if ¬(lo.2.1 ∈ BLOCK_ENDERS_U8) ∧ isKnownOpcode lo.2.1 ∧
          kb.2.end_pc + 1 < last_pc_total
       then [kb.2.end_pc + 1] else [])

/-! Concrete states for the basic-connection claims. -/

/-- A single-block map whose direct `JUMP` targets pc 9, which no block
contains. -/
def blkC4 : InstructionBlock := ⟨0, 2, [(0, 0x60, some 9), (2, 0x56, none)], some 9, none⟩

/-- State for the C4 counterexample: `PUSH1 09; JUMP` with no block at 9. -/
def stC4 : CFGState :=
  { cfg_dag := { nodes := [(0, 2)], edges := [] },
    last_node := none, jumpi_edge := none,
    bytecode := [0x60, 0x09, 0x56],
    map_to_instructionblock := [((0, 2), blkC4)],
    executed_pcs := none }

/-- Entry block of the spec's seed scenario 3 (`PUSH1 06; JUMPI`). -/
def blkC5a : InstructionBlock := ⟨0, 2, [(0, 0x60, some 6), (2, 0x57, none)], some 6, none⟩

/-- Fall-through block of seed scenario 3 (`PUSH1 01; STOP`). -/
def blkC5b : InstructionBlock := ⟨3, 5, [(3, 0x60, some 1), (5, 0x00, none)], none, none⟩

/-- Jump-target block of seed scenario 3 (`JUMPDEST; PUSH1 02`). -/
def blkC5c : InstructionBlock := ⟨6, 8, [(6, 0x5b, none), (7, 0x60, some 2)], none, none⟩

/-- State for the C5 witness: seed scenario 3, bytecode `6006576001005B6002`. -/
def stC5 : CFGState :=
  { cfg_dag := { nodes := [(0, 2), (3, 5), (6, 8)], edges := [] },
    last_node := none, jumpi_edge := none,
    bytecode := [0x60, 0x06, 0x57, 0x60, 0x01, 0x00, 0x5b, 0x60, 0x02],
    map_to_instructionblock := [((0, 2), blkC5a), ((3, 5), blkC5b), ((6, 8), blkC5c)],
    executed_pcs := none }

/-- Basic connections computed for `stC5`: `ConditionFalse 0→3`,
`ConditionTrue 0→6`. -/
def gC5 : CFGDag :=
  { nodes := [(0, 2), (3, 5), (6, 8)],
    edges := [((0, 2), (3, 5), Edges.ConditionFalse),
              ((0, 2), (6, 8), Edges.ConditionTrue)] }

/-- Entry block of the C5 counterexample (`PUSH1 03; JUMPI` whose direct true
target equals the fall-through pc 3). -/
def blkC5xa : InstructionBlock := ⟨0, 2, [(0, 0x60, some 3), (2, 0x57, none)], some 3, none⟩

/-- Target block of the C5 counterexample (`JUMPDEST; STOP`). -/
def blkC5xb : InstructionBlock := ⟨3, 4, [(3, 0x5b, none), (4, 0x00, none)], none, none⟩

/-- State for the C5 counterexample: bytecode `600357 5b00`. -/
def stC5x : CFGState :=
  { cfg_dag := { nodes := [(0, 2), (3, 4)], edges := [] },
    last_node := none, jumpi_edge := none,
    bytecode := [0x60, 0x03, 0x57, 0x5b, 0x00],
    map_to_instructionblock := [((0, 2), blkC5xa), ((3, 4), blkC5xb)],
    executed_pcs := none }

/-- Basic connections computed for `stC5x`: the `ConditionTrue` edge to the
same ordered node pair has replaced the `ConditionFalse` edge. -/
def gC5x : CFGDag :=
  { nodes := [(0, 2), (3, 4)],
    edges := [((0, 2), (3, 4), Edges.ConditionTrue)] }

/-- The removal test of the pruning pass as a total boolean: zero incoming
edges, first opcode not `JUMPDEST` and `start_pc` not 0 (defined for blocks
whose `ops` are non-empty; an empty zero-incoming block makes the pass
panic). -/
def remPredB (g : CFGDag) (blk : InstructionBlock) : Bool :=
  decide (g.incomingCount (blk.start_pc, blk.end_pc) = 0) &&
    (match blk.ops.head? with
     | none => false
     | some op0 => decide (op0.2.1 ≠ 0x5b ∧ blk.start_pc ≠ 0))

/-- Conditions (i)-(iii) of the pruning pass for a graph node `n`: some block
of the map with pcs `n` has zero incoming edges, does not begin with
`JUMPDEST` and does not start at PC 0. -/
def pruneRemoves (st : CFGState) (n : Nat × Nat) : Bool :=
  st.map_to_instructionblock.any (fun kb =>
    decide ((kb.2.start_pc, kb.2.end_pc) = n) && remPredB st.cfg_dag kb.2)

/-- Reachability along the directed edges of a `CFGDag`. -/
inductive Reachable (g : CFGDag) (a : Nat × Nat) : (Nat × Nat) → Prop
  | refl : Reachable g a a
  | step {b c : Nat × Nat} (hab : Reachable g a b) (w : Edges)
      (hbc : (b, c, w) ∈ g.edges) : Reachable g a c

/-! Concrete `CFGRunner` states used in witnesses and counterexamples. -/

/-- A state as produced by basic connections for the bytecode
`00 6007 57 6001 00 5b 00` (`STOP; PUSH1 07; JUMPI; PUSH1 01; STOP; JUMPDEST;
STOP`): the dead `JUMPI` block `(1,3)` has a fall-through edge into `(4,6)`
and a direct true edge to `(7,8)`. -/
def stC7 : CFGState :=
  { cfg_dag :=
      { nodes := [(0, 0), (1, 3), (4, 6), (7, 8)],
        edges := [((1, 3), (4, 6), Edges.ConditionFalse),
                  ((1, 3), (7, 8), Edges.ConditionTrue)] },
    last_node := none, jumpi_edge := none,
    bytecode := [0x00, 0x60, 0x07, 0x57, 0x60, 0x01, 0x00, 0x5b, 0x00],
    map_to_instructionblock :=
      [ ((0, 0), ⟨0, 0, [(0, 0x00, none)], none, none⟩),
        ((1, 3), ⟨1, 3, [(1, 0x60, some 7), (3, 0x57, none)], some 7, none⟩),
        ((4, 6), ⟨4, 6, [(4, 0x60, some 1), (6, 0x00, none)], none, none⟩),
        ((7, 8), ⟨7, 8, [(7, 0x5b, none), (8, 0x00, none)], none, none⟩) ],
    executed_pcs := none }

/-- `stC7` after one pruning pass: the dead `JUMPI` block `(1,3)` and its
outgoing edges are gone. -/
def stC7Pruned : CFGState :=
  { stC7 with cfg_dag := { nodes := [(0, 0), (4, 6), (7, 8)], edges := [] } }

/-- A small state for the C6 witness: the entry block has an edge to a
`JUMPDEST` block, and the dead non-`JUMPDEST` block `(2,3)` is prunable. -/
def stC6 : CFGState :=
  { cfg_dag :=
      { nodes := [(0, 1), (2, 3), (7, 8)],
        edges := [((0, 1), (7, 8), Edges.Jump)] },
    last_node := none, jumpi_edge := none,
    bytecode := [],
    map_to_instructionblock :=
      [ ((0, 1), ⟨0, 1, [(0, 0x60, some 7)], some 7, none⟩),
        ((2, 3), ⟨2, 3, [(2, 0x60, some 9), (3, 0x56, none)], some 9, none⟩),
        ((7, 8), ⟨7, 8, [(7, 0x5b, none), (8, 0x00, none)], none, none⟩) ],
    executed_pcs := none }

/-- `stC6` after one pruning pass. -/
def stC6Pruned : CFGState :=
  { stC6 with cfg_dag := { nodes := [(0, 1), (7, 8)],
                           edges := [((0, 1), (7, 8), Edges.Jump)] } }

/-- A state for the C10 witness: block `(2,3)` has its start pc in the
executed-PC set yet is prunable. -/
def stC10 : CFGState :=
  { cfg_dag := { nodes := [(0, 1), (2, 3)], edges := [] },
    last_node := none, jumpi_edge := none,
    bytecode := [],
    map_to_instructionblock :=
      [ ((0, 1), ⟨0, 1, [(0, 0x00, none)], none, none⟩),
        ((2, 3), ⟨2, 3, [(2, 0x60, some 9), (3, 0x56, none)], some 9, none⟩) ],
    executed_pcs := some [2] }

/-- `stC10` after one pruning pass: the executed block `(2,3)` is gone from
the graph but still in the instruction-block map. -/
def stC10Pruned : CFGState :=
  { stC10 with cfg_dag := { nodes := [(0, 1)], edges := [] } }

/-! ## Global transaction graph (src/analyzer.rs) -/

/-- The per-contract data `build_global_transaction_graph` reads from a
`ContractCFG`: address, the CFG's nodes and edges, the instruction-block map
and the executed-PC set. -/
structure ContractCFGData where
  address : Nat
  nodes : List (Nat × Nat)
  edges : List ((Nat × Nat) × (Nat × Nat) × Edges)
  blocks : List ((Nat × Nat) × InstructionBlock)
  executed : List Nat
deriving Repr, DecidableEq

/-- `TransactionNode` of analyzer.rs. -/
structure TransactionNode where
  contract_address : Nat
  pc : Nat
  instruction : String
  contains_sstore : Bool
deriving Repr, DecidableEq

/-- `TransactionEdge` of analyzer.rs. -/
inductive TransactionEdge where
  | Internal (s : String)
  | External (s : String)
deriving Repr, DecidableEq

/-- Modelled from the spec: the `Display` rendering of an instruction block
(the `rendered_instruction` of §4.8); the dasm module holding the `Display`
impl is not in the source tree, and the claims do not depend on its text. -/
def renderBlock (blk : InstructionBlock) : String :=
  String.intercalate " " (blk.ops.map (fun o => toString o.1 ++ ":" ++ toString o.2.1))

/-- The `petgraph::DiGraph` plus the `node_mapping` HashMap of the analyzer.
Node indices are positions in `nodes`; `node_mapping` is an association list
whose newest insertion wins (HashMap insert overwrites). -/
structure GlobalGraph where
  nodes : List TransactionNode
  edges : List (Nat × Nat × TransactionEdge)
  node_mapping : List ((Nat × Nat) × Nat)
deriving Repr, DecidableEq

/-- First-match lookup in the node mapping (`HashMap::get`). -/
def lookupMapping (k : Nat × Nat) : List ((Nat × Nat) × Nat) → Option Nat
  | [] => none
  | (k2, v) :: rest => if k2 = k then some v else lookupMapping k rest

/-- `BTreeMap::get` on the instruction-block map. -/
def lookupBlock (k : Nat × Nat) : List ((Nat × Nat) × InstructionBlock) →
    Option InstructionBlock
  | [] => none
  | (k2, v) :: rest => if k2 = k then some v else lookupBlock k rest

/-- One iteration of the node-creation loop: a `TxNode` is added for a dag
node exactly when the node's `start_pc` is in the executed-PC set; the
`.unwrap()` on the block lookup is a panic (`none`). -/
def addNodeStep (c : ContractCFGData) (G : GlobalGraph) (n : Nat × Nat) :
    Option GlobalGraph :=
  if n.1 ∈ c.executed then
    match lookupBlock n c.blocks with
    | none => none
    | some blk =>
      some { G with
        nodes := G.nodes ++ [⟨c.address, blk.start_pc, renderBlock blk,
          blk.ops.any (fun o => decide (o.2.1 = 0x55))⟩],
        node_mapping := ((c.address, blk.start_pc), G.nodes.length) :: G.node_mapping }
  else some G

/-- The node-creation loop of `build_global_transaction_graph` for one
contract. -/
def addContractNodes (c : ContractCFGData) (G : GlobalGraph) : Option GlobalGraph :=
  c.nodes.foldlM (addNodeStep c) G

/-- One iteration of the internal-edge loop: for a CFG edge whose two
endpoint `start_pc`s were executed and whose endpoints are in the node
mapping, add an `Internal` edge labelled with the `Debug` string of the edge
kind. -/
def addInternalEdgeStep (c : ContractCFGData) (G : GlobalGraph)
    (e : (Nat × Nat) × (Nat × Nat) × Edges) : GlobalGraph :=
  if e.1.1 ∈ c.executed ∧ e.2.1.1 ∈ c.executed then
    match lookupMapping (c.address, e.1.1) G.node_mapping,
          lookupMapping (c.address, e.2.1.1) G.node_mapping with
    | some i, some j =>
      { G with edges := G.edges ++ [(i, j, TransactionEdge.Internal e.2.2.debugStr)] }
    | _, _ => G
  else G

/-- The internal-edge loop for one contract. -/
def addContractInternalEdges (c : ContractCFGData) (G : GlobalGraph) : GlobalGraph :=
  c.edges.foldl (addInternalEdgeStep c) G

/-- One iteration of the cross-contract call-edge loop: add an `External`
edge when both `(from_addr, from_pc)` and `(to_addr, 0)` are in the node
mapping; otherwise the call edge is silently dropped. -/
def addExternalEdgeStep (G : GlobalGraph) (ce : CallEdge) : GlobalGraph :=
  match lookupMapping (ce.from_addr, ce.from_pc) G.node_mapping,
        lookupMapping (ce.to_addr, 0) G.node_mapping with
  | some i, some j =>
    { G with edges := G.edges ++ [(i, j, TransactionEdge.External ce.call_type)] }
  | _, _ => G

/-- The cross-contract call-edge loop. -/
def addExternalEdges (ces : List CallEdge) (G : GlobalGraph) : GlobalGraph :=
  ces.foldl addExternalEdgeStep G

/-- `TransactionAnalyzer::build_global_transaction_graph`: create the
executed nodes per contract, then the internal edges, then the external call
edges. -/
def build_global_transaction_graph (contracts : List ContractCFGData)
    (ces : List CallEdge) : Option GlobalGraph := do
  let G1 ← contracts.foldlM (fun G c => addContractNodes c G) ⟨[], [], []⟩
  let G2 := contracts.foldl (fun G c => addContractInternalEdges c G) G1
  pure (addExternalEdges ces G2)

/-! Concrete inputs for the global-graph claims. -/

/-- Block `[0,5]` of the C1 counterexample contract. -/
def blkC1 : InstructionBlock := ⟨0, 5, [(0, 0x60, some 1), (5, 0x00, none)], none, none⟩

/-- C1 counterexample contract: the only observed pc (3) falls inside the
block `[0,5]` but is not its `start_pc`. -/
def cC1 : ContractCFGData :=
  { address := 1, nodes := [(0, 5)], edges := [],
    blocks := [((0, 5), blkC1)], executed := [3] }

/-- Caller block `[0,5]` of the C2 counterexample (contains pc 3). -/
def blkC2a : InstructionBlock :=
  ⟨0, 5, [(0, 0x60, some 1), (3, 0xf1, none), (5, 0x00, none)], none, none⟩

/-- Callee entry block of the C2 counterexample. -/
def blkC2b : InstructionBlock := ⟨0, 4, [(0, 0x00, none)], none, none⟩

/-- C2 counterexample caller contract (address 1): its block `[0,5]` is
executed (pc 0 observed) and pc 3 — the call site — is observed too. -/
def cC2a : ContractCFGData :=
  { address := 1, nodes := [(0, 5)], edges := [],
    blocks := [((0, 5), blkC2a)], executed := [0, 3] }

/-- C2 counterexample callee contract (address 2) with an executed entry
block. -/
def cC2b : ContractCFGData :=
  { address := 2, nodes := [(0, 4)], edges := [],
    blocks := [((0, 4), blkC2b)], executed := [0] }

/-- C2 counterexample call edge: `from_pc = 3` lies strictly inside the
caller's block `[0,5]`. -/
def ceC2 : CallEdge := ⟨1, 3, 2, "CALL"⟩

/-- Witness contract for C1/C2: a single executed entry block. -/
def cW : ContractCFGData :=
  { address := 7, nodes := [(0, 2)], edges := [],
    blocks := [((0, 2), ⟨0, 2, [(0, 0x60, some 1), (2, 0x00, none)], none, none⟩)],
    executed := [0] }

/-- Witness callee contract for C2 with an executed entry block at pc 0. -/
def cW2 : ContractCFGData :=
  { address := 8, nodes := [(0, 1)], edges := [],
    blocks := [((0, 1), ⟨0, 1, [(0, 0x00, none)], none, none⟩)],
    executed := [0] }

/-- Witness call edge for C2: `from_pc` equals the caller block's
`start_pc`, so both mapping lookups succeed. -/
def ceW : CallEdge := ⟨7, 0, 8, "STATICCALL"⟩

/-- The `TxNode` that the node loop emits for dag node `n` of contract `c`,
when any: present exactly when `n`'s `start_pc` is executed and the block
lookup succeeds. -/
def txNodeOf (c : ContractCFGData) (n : Nat × Nat) : Option TransactionNode :=
  if n.1 ∈ c.executed then
    (lookupBlock n c.blocks).map (fun blk =>
      ⟨c.address, blk.start_pc, renderBlock blk,
        blk.ops.any (fun o => decide (o.2.1 = 0x55))⟩)
  else none

/-- The `External` edge the call-edge loop emits for a trace call edge, when
both node-mapping lookups succeed. -/
def extEdgeOf (m : List ((Nat × Nat) × Nat)) (ce : CallEdge) :
    Option (Nat × Nat × TransactionEdge) :=
  match lookupMapping (ce.from_addr, ce.from_pc) m, lookupMapping (ce.to_addr, 0) m with
  | some i, some j => some (i, j, TransactionEdge.External ce.call_type)
  | _, _ => none

/-- The node mapping holds a key exactly when a `TxNode` with that address
and pc was emitted. -/
def mappingConsistent (G : GlobalGraph) : Prop :=
  ∀ k, (lookupMapping k G.node_mapping).isSome ↔
    ∃ tx ∈ G.nodes, (tx.contract_address, tx.pc) = k

/-- `build_global_transaction_graph [cW, cW2] [ceW]` computed. -/
def GW : GlobalGraph :=
  ⟨[⟨7, 0, renderBlock ⟨0, 2, [(0, 0x60, some 1), (2, 0x00, none)], none, none⟩, false⟩,
    ⟨8, 0, renderBlock ⟨0, 1, [(0, 0x00, none)], none, none⟩, false⟩],
   [(0, 1, TransactionEdge.External "STATICCALL")],
   [((8, 0), 1), ((7, 0), 0)]⟩

/-- `build_global_transaction_graph [cW] []` computed. -/
def GW1 : GlobalGraph :=
  ⟨[⟨7, 0, renderBlock ⟨0, 2, [(0, 0x60, some 1), (2, 0x00, none)], none, none⟩, false⟩],
   [], [((7, 0), 0)]⟩

/-! ## JSON model for parse_trace_file (src/cfg_gen/trace.rs) -/

/-- A JSON value.  Numbers are modelled as integers: every numeric trace
field is an integer type, and serde rejects fractional values for them. -/
inductive Json where
  | null
  | bool (b : Bool)
  | num (n : Int)
  | str (s : String)
  | arr (xs : List Json)
  | obj (fields : List (String × Json))

/-- The values under a given key of a JSON object (serde reports a
duplicate-field error when a known field occurs twice). -/
def fieldOccs (name : String) (fs : List (String × Json)) : List Json :=
  (fs.filter (fun f => decide (f.1 = name))).map (fun f => f.2)

/-- serde decoding of an `Option<T>` struct field: absent or `null` gives
`None`, a single value must decode, a duplicate is an error. -/
def decodeOptField {α : Type} (name : String) (fs : List (String × Json))
    (dec : Json → Option α) : Option (Option α) :=
  match fieldOccs name fs with
  | [] => some none
  | [Json.null] => some none
  | [v] => (dec v).map some
  | _ => none

/-- serde decoding of a required struct field: it must occur exactly once
and decode. -/
def decodeReqField {α : Type} (name : String) (fs : List (String × Json))
    (dec : Json → Option α) : Option α :=
  match fieldOccs name fs with
  | [v] => dec v
  | _ => none

def decodeU16 : Json → Option Nat
  | .num n => if 0 ≤ n ∧ n < 65536 then some n.toNat else none
  | _ => none

def decodeU64 : Json → Option Nat
  | .num n => if 0 ≤ n ∧ n < 18446744073709551616 then some n.toNat else none
  | _ => none

def decodeU8 : Json → Option Nat
  | .num n => if 0 ≤ n ∧ n < 256 then some n.toNat else none
  | _ => none

def decodeString : Json → Option String
  | .str s => some s
  | _ => none

def decodeBool : Json → Option Bool
  | .bool b => some b
  | _ => none

/-- `Vec<String>`. -/
def decodeListString : Json → Option (List String)
  | .arr xs => xs.mapM decodeString
  | _ => none

/-- `HashMap<String, String>` (kept as an association list). -/
def decodeStringMap : Json → Option (List (String × String))
  | .obj fs => fs.mapM (fun f => (decodeString f.2).map (fun s => (f.1, s)))
  | _ => none

/-- `HashMap<String, u8>` (kept as an association list). -/
def decodeU8Map : Json → Option (List (String × Nat))
  | .obj fs => fs.mapM (fun f => (decodeU8 f.2).map (fun v => (f.1, v)))
  | _ => none

/-- serde deserialization of `TraceStep`: a JSON object whose known fields
(all `Option`al, `gasCost` renamed) decode; unknown fields are ignored. -/
def decodeTraceStep (j : Json) : Option TraceStep :=
  match j with
  | .obj fs => do
    let pc ← decodeOptField "pc" fs decodeU16
    let op ← decodeOptField "op" fs decodeString
    let gas ← decodeOptField "gas" fs decodeU64
    let gas_cost ← decodeOptField "gasCost" fs decodeU64
    let depth ← decodeOptField "depth" fs decodeU64
    let error ← decodeOptField "error" fs decodeString
    let stack ← decodeOptField "stack" fs decodeListString
    let memory ← decodeOptField "memory" fs decodeListString
    let storage ← decodeOptField "storage" fs decodeStringMap
    let address ← decodeOptField "address" fs decodeU8Map
    pure ⟨pc, op, gas, gas_cost, depth, error, stack, memory, storage, address⟩
  | _ => none

/-- serde deserialization of `Vec<TraceStep>`. -/
def decodeTraceSteps : Json → Option (List TraceStep)
  | .arr xs => xs.mapM decodeTraceStep
  | _ => none

/-- `TraceTransaction` from trace.rs. -/
structure TraceTransaction where
  gas : Nat
  failed : Bool
  return_value : String
  struct_logs : List TraceStep

/-- serde deserialization of `TraceTransaction`: `gas`, `failed`,
`returnValue` and `structLogs` are all required; unknown fields are
ignored. -/
def decodeTraceTransaction (j : Json) : Option TraceTransaction :=
  match j with
  | .obj fs =>
    match decodeReqField "gas" fs decodeU64, decodeReqField "failed" fs decodeBool,
        decodeReqField "returnValue" fs decodeString,
        decodeReqField "structLogs" fs decodeTraceSteps with
    | some gas, some failed, some rv, some logs => some ⟨gas, failed, rv, logs⟩
    | _, _, _, _ => none
  | _ => none

/-- `parse_trace_file`: the file content is modelled as `Option Json`
(`none` = unreadable file or invalid JSON, both of which fail the initial
read/parse).  Try the array of `TraceStep` first; on failure try the
`TraceTransaction` object and return its `structLogs`. -/
def parse_trace_file (content : Option Json) : Option (List TraceStep) :=
  match content with
  | none => none
  | some j =>
    match decodeTraceSteps j with
    | some steps => some steps
    | none => (decodeTraceTransaction j).map (fun t => t.struct_logs)

/-- The first accepted input shape of the spec: a JSON array whose elements
deserialize as `TraceStep`. -/
def stepArrayShape : Json → Bool
  | .arr xs => xs.all (fun x => (decodeTraceStep x).isSome)
  | _ => false

/-- A required field of the given shape occurring exactly once. -/
def reqFieldShape (name : String) (fs : List (String × Json)) (tb : Json → Bool) : Bool :=
  match fieldOccs name fs with
  | [v] => tb v
  | _ => false

/-- The second accepted input shape of the spec: an object
`{gas, failed, returnValue, structLogs: [...]}` with `structLogs` an array
of `TraceStep`s. -/
def traceTransactionShape : Json → Bool
  | .obj fs =>
    reqFieldShape "gas" fs (fun v => (decodeU64 v).isSome) &&
      reqFieldShape "failed" fs (fun v => (decodeBool v).isSome) &&
      reqFieldShape "returnValue" fs (fun v => (decodeString v).isSome) &&
      reqFieldShape "structLogs" fs (fun v =>
        match v with
        | .arr xs => xs.all (fun x => (decodeTraceStep x).isSome)
        | _ => false)
  | _ => false

/-! ## Theorems for the trace-level claims (C3, C9) -/

theorem mkCallEdge_eq_spec (a b : TraceStep) : mkCallEdge a b = callEdgeSpecAmended (a, b) := by
  unfold mkCallEdge callEdgeSpecAmended TraceStep.is_contract_call TraceStep.get_call_type
  rcases hop : a.op with _ | k
  · simp [hop]
  · rcases hfa : a.get_h160_address with _ | fa <;>
      rcases hpc : a.pc with _ | fp <;>
        rcases hta : b.get_h160_address with _ | ta <;>
          by_cases hk : k = "CALL" ∨ k = "DELEGATECALL" ∨ k = "STATICCALL" ∨ k = "CALLCODE" <;>
            simp [hop, hfa, hpc, hta, hk] <;> tauto

theorem extractCallEdgesGo_eq (steps : List TraceStep) :
    extractCallEdgesGo steps = (steps.zip steps.tail).filterMap callEdgeSpecAmended := by
  induction steps with
  | nil => rfl
  | cons a rest ih =>
    cases rest with
    | nil => rfl
    | cons b r =>
      rw [extractCallEdgesGo, ih]
      show _ ++ _ = List.filterMap _ ((a, b) :: List.zip (b :: r) r)
      rw [List.filterMap_cons, mkCallEdge_eq_spec]
      cases h : callEdgeSpecAmended (a, b) <;> simp [h]

/-- C3 counterexample: `extract_call_edges` emits a call edge for the pair
`(stepCall5, stepNextSameAddr)` even though the two adjacent observed
addresses are equal, refuting the claim's condition that step i+1's address
must differ from step i's. -/
theorem C3_counterexample :
    stepCall5.get_h160_address = stepNextSameAddr.get_h160_address ∧
    extract_call_edges [stepCall5, stepNextSameAddr] =
      some [{ from_addr := 0, from_pc := 5, to_addr := 0, call_type := "CALL" }] :=
  ⟨rfl, by decide⟩

/-- C3 (amended): for every non-empty trace, `extract_call_edges` emits, for
each adjacent pair of steps, a `CallEdge {from = step[i].address, from_pc =
step[i].pc, to = step[i+1].address, kind = step[i].op}` if and only if step
i's opcode is one of CALL, DELEGATECALL, STATICCALL, CALLCODE, both steps
carry an observed address and step i carries a pc — with no requirement that
the two adjacent addresses differ. -/
theorem C3_extract_call_edges_amended (steps : List TraceStep) (h : steps ≠ []) :
    extract_call_edges steps =
      some ((steps.zip steps.tail).filterMap callEdgeSpecAmended) := by
  unfold extract_call_edges
  rw [if_neg (by simpa using h), extractCallEdgesGo_eq]

/-- Witness for C3's amended theorem at a concrete two-step trace. -/
theorem C3_extract_call_edges_amended_witness :
    extract_call_edges [stepCall5, stepNextSameAddr] =
      some (([stepCall5, stepNextSameAddr].zip
        [stepCall5, stepNextSameAddr].tail).filterMap callEdgeSpecAmended) :=
  C3_extract_call_edges_amended [stepCall5, stepNextSameAddr] (by simp)

/-- C9: `extract_call_edges` fails (the `steps.len() - 1` loop bound
underflows and indexing panics) exactly on the empty step list, and hence
`TransactionAnalyzer::new` fails exactly on an empty trace; on every
non-empty step list both return normally. -/
theorem C9_extract_call_edges_total_iff_nonempty (steps : List TraceStep) :
    ((extract_call_edges steps).isSome ↔ steps ≠ []) ∧
    ((TransactionAnalyzer.new steps).isSome ↔ steps ≠ []) := by
  cases steps <;> simp [extract_call_edges, TransactionAnalyzer.new]

/-! ## Helper lemmas for the pruning pass -/

theorem shouldRemoveBlock_eq (g : CFGDag) (blk : InstructionBlock)
    (h : blk.ops ≠ [] ∨ g.incomingCount (blk.start_pc, blk.end_pc) ≠ 0) :
    shouldRemoveBlock g blk = some (remPredB g blk) := by
  unfold shouldRemoveBlock remPredB
  by_cases hc : g.incomingCount (blk.start_pc, blk.end_pc) = 0
  · rcases hh : blk.ops.head? with _ | op0
    · rcases h with h | h
      · exact absurd (List.head?_eq_none_iff.mp hh) h
      · exact absurd hc h
    · simp [hc, hh]
  · simp [hc]

theorem shouldRemoveBlock_isSome_iff (g : CFGDag) (blk : InstructionBlock) :
    (shouldRemoveBlock g blk).isSome ↔
      (blk.ops ≠ [] ∨ g.incomingCount (blk.start_pc, blk.end_pc) ≠ 0) := by
  unfold shouldRemoveBlock
  by_cases hc : g.incomingCount (blk.start_pc, blk.end_pc) = 0
  · rcases hh : blk.ops.head? with _ | op0 <;>
      simp [hc, hh, List.head?_eq_none_iff.mp, ← List.head?_eq_none_iff]
  · simp [hc]

theorem toRemoveStep_eq (g : CFGDag) (acc : List (Nat × Nat))
    (kb : (Nat × Nat) × InstructionBlock)
    (h : kb.2.ops ≠ [] ∨ g.incomingCount (kb.2.start_pc, kb.2.end_pc) ≠ 0) :
    toRemoveStep g acc kb =
      some (if remPredB g kb.2 then acc ++ [(kb.2.start_pc, kb.2.end_pc)] else acc) := by
  unfold toRemoveStep
  rw [shouldRemoveBlock_eq g kb.2 h]
  rfl

theorem toRemove_fold (g : CFGDag) (l : List ((Nat × Nat) × InstructionBlock))
    (acc : List (Nat × Nat))
    (h : ∀ kb ∈ l, kb.2.ops ≠ [] ∨ g.incomingCount (kb.2.start_pc, kb.2.end_pc) ≠ 0) :
    (l.foldlM (toRemoveStep g) acc : Option _) =
      some (acc ++ (l.filter (fun kb => remPredB g kb.2)).map
        (fun kb => (kb.2.start_pc, kb.2.end_pc))) := by
  induction l generalizing acc with
  | nil => simp
  | cons kb l ih =>
    rw [List.foldlM_cons, toRemoveStep_eq g acc kb (h kb (List.mem_cons_self _ _))]
    cases hb : remPredB g kb.2 <;>
      simp [hb, ih _ (fun x hx => h x (List.mem_cons_of_mem _ hx)), List.filter_cons]

theorem foldl_remove_node (rs : List (Nat × Nat)) (g : CFGDag) :
    rs.foldl (fun g n => g.remove_node n) g =
      { nodes := g.nodes.filter (fun m => decide (m ∉ rs)),
        edges := g.edges.filter (fun e => decide (e.1 ∉ rs ∧ e.2.1 ∉ rs)) } := by
  induction rs generalizing g with
  | nil => cases g <;> simp
  | cons r rs ih =>
    rw [List.foldl_cons, ih]
    cases g with
    | mk ns es =>
      simp only [CFGDag.remove_node, List.filter_filter, CFGDag.mk.injEq]
      constructor
      · apply List.filter_congr
        intro a _
        by_cases h1 : a = r <;> by_cases h2 : a ∈ rs <;> simp [h1, h2]
      · apply List.filter_congr
        intro e _
        by_cases h1 : e.1 = r <;> by_cases h2 : e.1 ∈ rs <;>
          by_cases h3 : e.2.1 = r <;> by_cases h4 : e.2.1 ∈ rs <;>
            simp [h1, h2, h3, h4]

theorem mem_pruneList (st : CFGState) (n : Nat × Nat) :
    n ∈ (st.map_to_instructionblock.filter (fun kb => remPredB st.cfg_dag kb.2)).map
        (fun kb => (kb.2.start_pc, kb.2.end_pc)) ↔ pruneRemoves st n = true := by
  simp only [pruneRemoves, List.any_eq_true, List.mem_map, List.mem_filter,
    Bool.and_eq_true, decide_eq_true_eq]
  constructor
  · rintro ⟨kb, ⟨hmem, hpred⟩, hfields⟩
    exact ⟨kb, hmem, hfields, hpred⟩
  · rintro ⟨kb, hmem, hfields, hpred⟩
    exact ⟨kb, ⟨hmem, hpred⟩, hfields⟩

theorem decide_mem_pruneList (st : CFGState) (n : Nat × Nat) :
    decide (n ∈ (st.map_to_instructionblock.filter (fun kb => remPredB st.cfg_dag kb.2)).map
        (fun kb => (kb.2.start_pc, kb.2.end_pc))) = pruneRemoves st n := by
  cases hb : pruneRemoves st n
  · have hnm : ¬ n ∈ (st.map_to_instructionblock.filter
        (fun kb => remPredB st.cfg_dag kb.2)).map (fun kb => (kb.2.start_pc, kb.2.end_pc)) :=
      fun hm => by rw [(mem_pruneList st n).mp hm] at hb; exact Bool.noConfusion hb
    simp [hnm]
  · simp [(mem_pruneList st n).mpr hb]

theorem prune_characterization (st : CFGState)
    (hops : ∀ kb ∈ st.map_to_instructionblock,
      kb.2.ops ≠ [] ∨ st.cfg_dag.incomingCount (kb.2.start_pc, kb.2.end_pc) ≠ 0) :
    remove_unreachable_instruction_blocks st = some
      { st with cfg_dag :=
        { nodes := st.cfg_dag.nodes.filter (fun n => !pruneRemoves st n),
          edges := st.cfg_dag.edges.filter
            (fun e => !pruneRemoves st e.1 && !pruneRemoves st e.2.1) } } := by
  have hn : st.cfg_dag.nodes.filter (fun m => decide (m ∉
        (st.map_to_instructionblock.filter (fun kb => remPredB st.cfg_dag kb.2)).map
          (fun kb => (kb.2.start_pc, kb.2.end_pc)))) =
      st.cfg_dag.nodes.filter (fun n => !pruneRemoves st n) :=
    List.filter_congr (fun a _ => by rw [decide_not, decide_mem_pruneList])
  have he : st.cfg_dag.edges.filter (fun e => decide (e.1 ∉
        (st.map_to_instructionblock.filter (fun kb => remPredB st.cfg_dag kb.2)).map
          (fun kb => (kb.2.start_pc, kb.2.end_pc)) ∧ e.2.1 ∉
        (st.map_to_instructionblock.filter (fun kb => remPredB st.cfg_dag kb.2)).map
          (fun kb => (kb.2.start_pc, kb.2.end_pc)))) =
      st.cfg_dag.edges.filter (fun e => !pruneRemoves st e.1 && !pruneRemoves st e.2.1) :=
    List.filter_congr (fun e _ => by
      rw [Bool.decide_and, decide_not, decide_not, decide_mem_pruneList, decide_mem_pruneList])
  unfold remove_unreachable_instruction_blocks
  rw [toRemove_fold st.cfg_dag _ [] hops]
  simp only [List.nil_append, Option.bind_eq_bind, Option.some_bind, Option.pure_def]
  rw [foldl_remove_node, hn, he]

theorem prune_isSome_hyp (st : CFGState) (st1 : CFGState)
    (h : remove_unreachable_instruction_blocks st = some st1) :
    ∀ kb ∈ st.map_to_instructionblock,
      kb.2.ops ≠ [] ∨ st.cfg_dag.incomingCount (kb.2.start_pc, kb.2.end_pc) ≠ 0 := by
  unfold remove_unreachable_instruction_blocks at h
  intro kb hkb
  rcases hf : (st.map_to_instructionblock.foldlM (toRemoveStep st.cfg_dag)
      ([] : List (Nat × Nat)) : Option _) with _ | L
  · rw [hf] at h; exact Option.noConfusion h
  · clear h
    rw [← shouldRemoveBlock_isSome_iff]
    -- the fold succeeded, hence every per-element test succeeded
    generalize hacc : ([] : List (Nat × Nat)) = acc at hf
    clear hacc
    generalize hm : st.map_to_instructionblock = l at hf hkb
    clear hm
    induction l generalizing L acc with
    | nil => cases hkb
    | cons x l ih =>
      rw [List.foldlM_cons] at hf
      rcases hs : toRemoveStep st.cfg_dag acc x with _ | acc2
      · rw [hs] at hf; exact Option.noConfusion hf
      · rw [hs] at hf
        simp only [Option.bind_eq_bind, Option.some_bind] at hf
        rcases List.mem_cons.mp hkb with heq | hmem
        · subst heq
          unfold toRemoveStep at hs
          rcases hr : shouldRemoveBlock st.cfg_dag kb.2 with _ | b
          · rw [hr] at hs; exact Option.noConfusion hs
          · rfl
        · exact ih _ _ hf hmem

theorem prune_frame (st st1 : CFGState)
    (h : remove_unreachable_instruction_blocks st = some st1) :
    st1.map_to_instructionblock = st.map_to_instructionblock ∧
    st1.bytecode = st.bytecode ∧ st1.executed_pcs = st.executed_pcs ∧
    st1.last_node = st.last_node ∧ st1.jumpi_edge = st.jumpi_edge := by
  unfold remove_unreachable_instruction_blocks at h
  rcases hf : (st.map_to_instructionblock.foldlM (toRemoveStep st.cfg_dag)
      ([] : List (Nat × Nat)) : Option _) with _ | L
  · rw [hf] at h; exact Option.noConfusion h
  · rw [hf] at h
    simp only [Option.bind_eq_bind, Option.some_bind, Option.pure_def] at h
    cases h
    exact ⟨rfl, rfl, rfl, rfl, rfl⟩

theorem incomingCount_ne_zero_of_mem (g : CFGDag) (b c : Nat × Nat) (w : Edges)
    (h : (b, c, w) ∈ g.edges) : g.incomingCount c ≠ 0 := by
  unfold CFGDag.incomingCount
  intro hz
  have hm : (b, c, w) ∈ g.edges.filter (fun e => decide (e.2.1 = c)) :=
    List.mem_filter.mpr ⟨h, by simp⟩
  rw [List.length_eq_zero.mp hz] at hm
  cases hm

theorem pruneRemoves_false_of_entry (st : CFGState) (b : Nat × Nat) (hb : b.1 = 0) :
    pruneRemoves st b = false := by
  rw [Bool.eq_false_iff]
  intro hp
  obtain ⟨kb, _, hpred⟩ := List.any_eq_true.mp hp
  rw [Bool.and_eq_true, decide_eq_true_eq] at hpred
  obtain ⟨hfields, hrem⟩ := hpred
  unfold remPredB at hrem
  rw [Bool.and_eq_true] at hrem
  rcases hh : kb.2.ops.head? with _ | op0 <;> rw [hh] at hrem
  · exact Bool.noConfusion hrem.2
  · have hst : kb.2.start_pc ≠ 0 := (decide_eq_true_eq.mp hrem.2).2
    apply hst
    have : kb.2.start_pc = b.1 := congrArg Prod.fst hfields
    rw [this, hb]

theorem pruneRemoves_false_of_incoming (st : CFGState) (a b : Nat × Nat) (w : Edges)
    (hedge : (a, b, w) ∈ st.cfg_dag.edges) : pruneRemoves st b = false := by
  rw [Bool.eq_false_iff]
  intro hp
  obtain ⟨kb, _, hpred⟩ := List.any_eq_true.mp hp
  rw [Bool.and_eq_true, decide_eq_true_eq] at hpred
  obtain ⟨hfields, hrem⟩ := hpred
  unfold remPredB at hrem
  rw [Bool.and_eq_true] at hrem
  have hz : st.cfg_dag.incomingCount (kb.2.start_pc, kb.2.end_pc) = 0 :=
    decide_eq_true_eq.mp hrem.1
  rw [hfields] at hz
  exact incomingCount_ne_zero_of_mem st.cfg_dag a b w hedge hz

/-! ## Helper lemmas for the basic-connection claims (C4, C5) -/

theorem jumpiFalseStep_isNone_iff (map : List ((Nat × Nat) × InstructionBlock))
    (L : Nat) (src : Nat × Nat) (e c : Nat) (g : CFGDag) :
    jumpiFalseStep map L src e c g = none ↔
      (c = 0x57 ∧ e + 1 < L ∧ get_node_from_pc map (e + 1) = none) := by
  unfold jumpiFalseStep
  by_cases h57 : c = 0x57
  · by_cases hge : e + 1 ≥ L
    · simp only [h57, if_pos rfl, if_pos hge]
      constructor
      · intro h; exact Option.noConfusion h
      · rintro ⟨-, hlt, -⟩; omega
    · rcases hlk : get_node_from_pc map (e + 1) with _ | tn <;>
        simp [h57, hge, hlk] <;> omega
  · simp [h57]

theorem directJumpStep_isNone_iff (map : List ((Nat × Nat) × InstructionBlock))
    (src : Nat × Nat) (c : Nat) (ij pv : Option Nat) (g : CFGDag)
    (hv : ∀ v, pv = some v → v < 65536) :
    directJumpStep map src c ij pv g = none ↔
      (ij = none ∧ ∃ v, pv = some v ∧ (c = 0x57 ∨ c = 0x56) ∧
        get_node_from_pc map v = none) := by
  unfold directJumpStep
  rcases ij with _ | i
  · rcases pv with _ | v
    · simp
    · have hv65 : v < 65536 := hv v rfl
      by_cases h57 : c = 0x57
      · have h56 : ¬ c = 0x56 := by rw [h57]; decide
        rcases hlk : get_node_from_pc map v with _ | tn <;>
          simp [h57, h56, hv65, hlk]
      · by_cases h56 : c = 0x56
        · rcases hlk : get_node_from_pc map v with _ | tn <;>
            simp [h57, h56, hv65, hlk]
        · simp [h57, h56]
  · simp

theorem fallthroughStep_isNone_iff (map : List ((Nat × Nat) × InstructionBlock))
    (L : Nat) (src : Nat × Nat) (e c : Nat) (g : CFGDag) :
    fallthroughStep map L src e c g = none ↔
      (¬(c ∈ BLOCK_ENDERS_U8) ∧ isKnownOpcode c ∧ e + 1 < L ∧
        get_node_from_pc map (e + 1) = none) := by
  unfold fallthroughStep
  by_cases hbe : ¬(c ∈ BLOCK_ENDERS_U8) ∧ isKnownOpcode c
  · by_cases hge : e + 1 ≥ L
    · simp only [if_pos hbe, if_pos hge]
      constructor
      · intro h; exact Option.noConfusion h
      · rintro ⟨-, -, hlt, -⟩; omega
    · rcases hlk : get_node_from_pc map (e + 1) with _ | tn
      · simp only [if_pos hbe, if_neg hge, hlk, Option.map_none']
        constructor
        · intro _; exact ⟨hbe.1, hbe.2, by omega, trivial⟩
        · intro _; trivial
      · simp [hbe, hge, hlk]
  · simp only [if_neg hbe]
    constructor
    · intro h; exact Option.noConfusion h
    · rintro ⟨h1, h2, -, -⟩; exact absurd ⟨h1, h2⟩ hbe

theorem processBlock_isNone_iff (map : List ((Nat × Nat) × InstructionBlock))
    (L : Nat) (g : CFGDag) (kb : (Nat × Nat) × InstructionBlock)
    (hop : kb.2.ops ≠ [])
    (hv : ∀ v, kb.2.push_used_for_jump = some v → v < 65536) :
    processBlockConnections map L g kb = none ↔
      ∃ t ∈ demandedTargets L kb, get_node_from_pc map t = none := by
  unfold processBlockConnections demandedTargets
  rcases hlo : kb.2.ops.getLast? with _ | lo
  · exact absurd (List.getLast?_eq_none_iff.mp hlo) hop
  · dsimp only
    rcases h1 : jumpiFalseStep map L (kb.2.start_pc, kb.2.end_pc) kb.2.end_pc lo.2.1 g
      with _ | g1
    · obtain ⟨h57, hlt, hlk⟩ := (jumpiFalseStep_isNone_iff _ _ _ _ _ _).mp h1
      simp only [Option.none_bind]
      constructor
      · intro _; exact ⟨kb.2.end_pc + 1, by simp [h57, hlt], hlk⟩
      · intro _; trivial
    · simp only [Option.some_bind]
      rcases h2 : directJumpStep map (kb.2.start_pc, kb.2.end_pc) lo.2.1
          kb.2.indirect_jump kb.2.push_used_for_jump g1 with _ | g3
      · obtain ⟨hij, v, hpv, hc, hlk⟩ :=
          (directJumpStep_isNone_iff _ _ _ _ _ _ hv).mp h2
        simp only [Option.none_bind]
        constructor
        · intro _
          refine ⟨v, ?_, hlk⟩
          have hv65 : v < 65536 := hv v hpv
          rcases hc with hc | hc <;> simp [hij, hpv, hc, hv65]
        · intro _; trivial
      · simp only [Option.some_bind]
        constructor
        · intro h4
          obtain ⟨hbe, hkn, hlt, hlk⟩ := (fallthroughStep_isNone_iff _ _ _ _ _ _).mp h4
          exact ⟨kb.2.end_pc + 1, by simp [hbe, hkn, hlt], hlk⟩
        · rintro ⟨t, hmem, hlk⟩
          rw [fallthroughStep_isNone_iff]
          -- `t` can only come from one of the three target groups; the first
          -- two are excluded because those lookups succeeded
          have hj : jumpiFalseStep map L (kb.2.start_pc, kb.2.end_pc) kb.2.end_pc
              lo.2.1 g ≠ none := by rw [h1]; exact fun hh => Option.noConfusion hh
          have hd : directJumpStep map (kb.2.start_pc, kb.2.end_pc) lo.2.1
              kb.2.indirect_jump kb.2.push_used_for_jump g1 ≠ none := by
            rw [h2]; exact fun hh => Option.noConfusion hh
          rw [Ne, jumpiFalseStep_isNone_iff] at hj
          rw [Ne, directJumpStep_isNone_iff _ _ _ _ _ _ hv] at hd
          rcases List.mem_append.mp hmem with hm | hm
          · rcases List.mem_append.mp hm with hm1 | hm2
            · by_cases hcond : lo.2.1 = 0x57 ∧ kb.2.end_pc + 1 < L
              · rw [if_pos hcond] at hm1
                have ht : t = kb.2.end_pc + 1 := List.mem_singleton.mp hm1
                exact absurd ⟨hcond.1, hcond.2, ht ▸ hlk⟩ hj
              · rw [if_neg hcond] at hm1; cases hm1
            · rcases hij : kb.2.indirect_jump with _ | i <;> rw [hij] at hm2 <;>
                rcases hpv : kb.2.push_used_for_jump with _ | v <;> rw [hpv] at hm2 <;>
                  dsimp only at hm2
              · cases hm2
              · by_cases hcond : (lo.2.1 = 0x57 ∨ lo.2.1 = 0x56) ∧ v < 65536
                · rw [if_pos hcond] at hm2
                  have ht : t = v := List.mem_singleton.mp hm2
                  exact absurd ⟨hij, v, hpv, hcond.1, ht ▸ hlk⟩ hd
                · rw [if_neg hcond] at hm2; cases hm2
              · cases hm2
              · cases hm2
          · by_cases hcond : ¬(lo.2.1 ∈ BLOCK_ENDERS_U8) ∧ isKnownOpcode lo.2.1 ∧
                kb.2.end_pc + 1 < L
            · rw [if_pos hcond] at hm
              have ht : t = kb.2.end_pc + 1 := List.mem_singleton.mp hm
              exact ⟨hcond.1, hcond.2.1, hcond.2.2, ht ▸ hlk⟩
            · rw [if_neg hcond] at hm; cases hm

theorem connections_fold_isNone_iff (map : List ((Nat × Nat) × InstructionBlock)) (L : Nat)
    (l : List ((Nat × Nat) × InstructionBlock)) (g : CFGDag)
    (hops : ∀ kb ∈ l, kb.2.ops ≠ [])
    (hv : ∀ kb ∈ l, ∀ v, kb.2.push_used_for_jump = some v → v < 65536) :
    (l.foldlM (processBlockConnections map L) g = none) ↔
      ∃ kb ∈ l, ∃ t ∈ demandedTargets L kb, get_node_from_pc map t = none := by
  induction l generalizing g with
  | nil => simp
  | cons kb l ih =>
    rw [List.foldlM_cons]
    rcases h1 : processBlockConnections map L g kb with _ | g1
    · simp only [Option.bind_eq_bind, Option.none_bind]
      constructor
      · intro _
        obtain ⟨t, hm, hlk⟩ := (processBlock_isNone_iff map L g kb
          (hops kb (List.mem_cons_self _ _)) (hv kb (List.mem_cons_self _ _))).mp h1
        exact ⟨kb, List.mem_cons_self _ _, t, hm, hlk⟩
      · intro _; trivial
    · simp only [Option.bind_eq_bind, Option.some_bind]
      rw [ih g1 (fun x hx => hops x (List.mem_cons_of_mem _ hx))
        (fun x hx => hv x (List.mem_cons_of_mem _ hx))]
      constructor
      · rintro ⟨x, hx, t, hm, hlk⟩
        exact ⟨x, List.mem_cons_of_mem _ hx, t, hm, hlk⟩
      · rintro ⟨x, hx, t, hm, hlk⟩
        rcases List.mem_cons.mp hx with heq | hxl
        · subst heq
          have hfail := (processBlock_isNone_iff map L g x
            (hops x (List.mem_cons_self _ _)) (hv x (List.mem_cons_self _ _))).mpr
            ⟨t, hm, hlk⟩
          rw [h1] at hfail
          exact absurd hfail (fun hh => Option.noConfusion hh)
        · exact ⟨x, hxl, t, hm, hlk⟩

/-! ## Theorems for the pruning claims (C6, C7, C10) -/

/-- C6: the pruning pass removes, in a single pass against the unmodified
graph, exactly those blocks that have zero incoming edges, do not start at
PC 0 and do not begin with `JUMPDEST`; consequently every block reachable
from a PC-0 entry block in the pre-pruning graph is still present
afterwards. -/
theorem C6_prune_removes_exactly (st st2 : CFGState)
    (h : remove_unreachable_instruction_blocks st = some st2) :
    st2.cfg_dag.nodes = st.cfg_dag.nodes.filter (fun n => !pruneRemoves st n) ∧
    ∀ entry b, entry.1 = 0 → Reachable st.cfg_dag entry b → b ∈ st.cfg_dag.nodes →
      b ∈ st2.cfg_dag.nodes := by
  have hops := prune_isSome_hyp st st2 h
  rw [prune_characterization st hops] at h
  have hst2 := (Option.some_inj.mp h).symm
  subst hst2
  refine ⟨rfl, ?_⟩
  intro entry b hentry hreach hb
  have hnot : pruneRemoves st b = false := by
    cases hreach with
    | refl => exact pruneRemoves_false_of_entry st entry hentry
    | step hab w hbc => exact pruneRemoves_false_of_incoming st _ b w hbc
  exact List.mem_filter.mpr ⟨hb, by rw [hnot]; rfl⟩

/-- Witness for C6 at a concrete state: the dead block `(2,3)` is removed and
the block `(7,8)`, reachable from the entry block `(0,1)`, survives. -/
theorem C6_prune_removes_exactly_witness :
    stC6Pruned.cfg_dag.nodes = stC6.cfg_dag.nodes.filter (fun n => !pruneRemoves stC6 n) ∧
    (7, 8) ∈ stC6Pruned.cfg_dag.nodes := by
  have h : remove_unreachable_instruction_blocks stC6 = some stC6Pruned := by decide
  obtain ⟨h1, h2⟩ := C6_prune_removes_exactly stC6 stC6Pruned h
  exact ⟨h1, h2 (0, 1) (7, 8) rfl
    (Reachable.step Reachable.refl Edges.Jump (by decide)) (by decide)⟩

/-- C7 counterexample: at the concrete state `stC7` the second pruning pass
succeeds but removes a further block (`(4,6)`, which lost its only incoming
edge when the dead `JUMPI` block `(1,3)` was removed), so the result of
pruning twice differs from the result of pruning once. -/
theorem C7_counterexample :
    ((remove_unreachable_instruction_blocks stC7).bind
        remove_unreachable_instruction_blocks).isSome = true ∧
    (remove_unreachable_instruction_blocks stC7).bind
        remove_unreachable_instruction_blocks ≠
      remove_unreachable_instruction_blocks stC7 :=
  ⟨by decide, by decide⟩

/-- C7 (amended): a second pruning run never fails when every block of the
map is non-empty (blocks already removed from the graph count zero incoming
edges, and removing them again is a no-op), but it is not the identity in
general: it removes exactly those blocks that, in the once-pruned graph, have
zero incoming edges, do not start at PC 0 and do not begin with `JUMPDEST` —
so the graph is unchanged precisely when no block newly satisfies the removal
conditions. -/
theorem C7_prune_second_pass (st st1 : CFGState)
    (h : remove_unreachable_instruction_blocks st = some st1)
    (hops : ∀ kb ∈ st.map_to_instructionblock, kb.2.ops ≠ []) :
    remove_unreachable_instruction_blocks st1 = some
      { st1 with cfg_dag :=
        { nodes := st1.cfg_dag.nodes.filter (fun n => !pruneRemoves st1 n),
          edges := st1.cfg_dag.edges.filter
            (fun e => !pruneRemoves st1 e.1 && !pruneRemoves st1 e.2.1) } } := by
  apply prune_characterization
  rw [(prune_frame st st1 h).1]
  intro kb hk
  exact Or.inl (hops kb hk)

/-- Witness for C7's amended theorem at the concrete state `stC7`: the second
pass removes the newly unreachable block `(4,6)`. -/
theorem C7_prune_second_pass_witness :
    remove_unreachable_instruction_blocks stC7Pruned = some
      { stC7Pruned with cfg_dag :=
        { nodes := stC7Pruned.cfg_dag.nodes.filter (fun n => !pruneRemoves stC7Pruned n),
          edges := stC7Pruned.cfg_dag.edges.filter
            (fun e => !pruneRemoves stC7Pruned e.1 && !pruneRemoves stC7Pruned e.2.1) } } :=
  C7_prune_second_pass stC7 stC7Pruned (by decide) (by decide)

/-- C10: the pruning pass mutates only `cfg_dag` — the instruction-block map,
the bytecode and the executed-PC set are unchanged — so a pruned block whose
`start_pc` is in the executed-PC set is still emitted as a node by
`cfg_dot_str_highlighted_only`. -/
theorem C10_prune_frame_effect (st st1 : CFGState)
    (h : remove_unreachable_instruction_blocks st = some st1) :
    st1.map_to_instructionblock = st.map_to_instructionblock ∧
    st1.bytecode = st.bytecode ∧ st1.executed_pcs = st.executed_pcs ∧
    ∀ pcs kb, st.executed_pcs = some pcs → kb ∈ st.map_to_instructionblock →
      kb.1.1 ∈ pcs → kb.1 ∈ cfg_dot_highlighted_node_keys st1 := by
  obtain ⟨hm, hb, he, _, _⟩ := prune_frame st st1 h
  refine ⟨hm, hb, he, ?_⟩
  intro pcs kb hpcs hmem hstart
  unfold cfg_dot_highlighted_node_keys
  rw [he, hpcs, hm]
  exact List.mem_map.mpr ⟨kb, List.mem_filter.mpr ⟨hmem, by simpa using hstart⟩, rfl⟩

/-- Witness for C10 at a concrete state: block `(2,3)` is pruned from the
graph yet still emitted by the highlighted-only DOT export. -/
theorem C10_prune_frame_effect_witness :
    stC10Pruned.map_to_instructionblock = stC10.map_to_instructionblock ∧
    stC10Pruned.bytecode = stC10.bytecode ∧
    stC10Pruned.executed_pcs = stC10.executed_pcs ∧
    (2, 3) ∈ cfg_dot_highlighted_node_keys stC10Pruned ∧
    (2, 3) ∉ stC10Pruned.cfg_dag.nodes := by
  obtain ⟨h1, h2, h3, h4⟩ :=
    C10_prune_frame_effect stC10 stC10Pruned (by decide)
  exact ⟨h1, h2, h3,
    h4 [2] ((2, 3), ⟨2, 3, [(2, 0x60, some 9), (3, 0x56, none)], some 9, none⟩)
      rfl (by decide) (by decide),
    by decide⟩

/-! ## Helper lemmas for claim C5 (membership of basic-connection edges) -/

theorem mem_add_edge_iff (g : CFGDag) (a b : Nat × Nat) (w : Edges)
    (x : (Nat × Nat) × (Nat × Nat) × Edges) :
    x ∈ (g.add_edge a b w).edges ↔
      (x = (a, b, w) ∨ (x ∈ g.edges ∧ ¬(x.1 = a ∧ x.2.1 = b))) := by
  unfold CFGDag.add_edge
  simp only [List.mem_append, List.mem_filter, List.mem_singleton, decide_eq_true_eq]
  tauto

theorem mem_add_edge_src_ne (g : CFGDag) (a b : Nat × Nat) (w : Edges)
    (x : (Nat × Nat) × (Nat × Nat) × Edges) (hx : x.1 ≠ a) :
    x ∈ (g.add_edge a b w).edges ↔ x ∈ g.edges := by
  rw [mem_add_edge_iff]
  constructor
  · rintro (rfl | ⟨hm, -⟩)
    · exact absurd rfl hx
    · exact hm
  · intro hm
    exact Or.inr ⟨hm, fun hc => hx hc.1⟩

theorem jumpiFalseStep_mem_src_ne (map : List ((Nat × Nat) × InstructionBlock))
    (L : Nat) (src : Nat × Nat) (e c : Nat) (g g1 : CFGDag)
    (h : jumpiFalseStep map L src e c g = some g1)
    (x : (Nat × Nat) × (Nat × Nat) × Edges) (hx : x.1 ≠ src) :
    x ∈ g1.edges ↔ x ∈ g.edges := by
  unfold jumpiFalseStep at h
  by_cases h57 : c = 0x57
  · rw [if_pos h57] at h
    by_cases hge : e + 1 ≥ L
    · rw [if_pos hge] at h
      cases h
      rfl
    · rw [if_neg hge] at h
      rcases hlk : get_node_from_pc map (e + 1) with _ | tn <;> rw [hlk] at h
      · exact Option.noConfusion h
      · cases h
        exact mem_add_edge_src_ne g src tn Edges.ConditionFalse x hx
  · rw [if_neg h57] at h
    cases h
    rfl

theorem directJumpStep_mem_src_ne (map : List ((Nat × Nat) × InstructionBlock))
    (src : Nat × Nat) (c : Nat) (ij pv : Option Nat) (g g3 : CFGDag)
    (h : directJumpStep map src c ij pv g = some g3)
    (x : (Nat × Nat) × (Nat × Nat) × Edges) (hx : x.1 ≠ src) :
    x ∈ g3.edges ↔ x ∈ g.edges := by
  unfold directJumpStep at h
  rcases ij with _ | i
  · rcases pv with _ | v
    · cases h; rfl
    · dsimp only at h
      by_cases h57 : c = 0x57
      · have h56 : ¬ c = 0x56 := by rw [h57]; decide
        rw [if_pos h57] at h
        rcases hp : (if v < 65536 then some v else (none : Option Nat)) with _ | t <;>
          rw [hp] at h
        · rw [Option.none_bind, Option.none_bind] at h
          exact Option.noConfusion h
        · simp only [Option.some_bind] at h
          rcases hlk : get_node_from_pc map t with _ | tn <;> rw [hlk] at h
          · rw [Option.map_none', Option.none_bind] at h
            exact Option.noConfusion h
          · simp only [Option.map_some', Option.some_bind, if_neg h56] at h
            cases h
            exact mem_add_edge_src_ne g src tn Edges.ConditionTrue x hx
      · rw [if_neg h57] at h
        simp only [Option.some_bind] at h
        by_cases h56 : c = 0x56
        · rw [if_pos h56] at h
          rcases hp : (if v < 65536 then some v else (none : Option Nat)) with _ | t <;>
            rw [hp] at h
          · rw [Option.none_bind] at h
            exact Option.noConfusion h
          · simp only [Option.some_bind] at h
            rcases hlk : get_node_from_pc map t with _ | tn <;> rw [hlk] at h
            · rw [Option.map_none'] at h
              exact Option.noConfusion h
            · rw [Option.map_some'] at h
              cases h
              exact mem_add_edge_src_ne g src tn Edges.Jump x hx
        · rw [if_neg h56] at h
          cases h
          rfl
  · cases h; rfl

theorem fallthroughStep_mem_src_ne (map : List ((Nat × Nat) × InstructionBlock))
    (L : Nat) (src : Nat × Nat) (e c : Nat) (g g4 : CFGDag)
    (h : fallthroughStep map L src e c g = some g4)
    (x : (Nat × Nat) × (Nat × Nat) × Edges) (hx : x.1 ≠ src) :
    x ∈ g4.edges ↔ x ∈ g.edges := by
  unfold fallthroughStep at h
  by_cases hbe : ¬(c ∈ BLOCK_ENDERS_U8) ∧ isKnownOpcode c
  · rw [if_pos hbe] at h
    by_cases hge : e + 1 ≥ L
    · rw [if_pos hge] at h
      cases h
      rfl
    · rw [if_neg hge] at h
      rcases hlk : get_node_from_pc map (e + 1) with _ | tn <;> rw [hlk] at h
      · exact Option.noConfusion h
      · cases h
        exact mem_add_edge_src_ne g src tn Edges.Jump x hx
  · rw [if_neg hbe] at h
    cases h
    rfl

theorem processBlock_mem_src_ne (map : List ((Nat × Nat) × InstructionBlock))
    (L : Nat) (g g2 : CFGDag) (kb : (Nat × Nat) × InstructionBlock)
    (h : processBlockConnections map L g kb = some g2)
    (x : (Nat × Nat) × (Nat × Nat) × Edges)
    (hx : x.1 ≠ (kb.2.start_pc, kb.2.end_pc)) :
    x ∈ g2.edges ↔ x ∈ g.edges := by
  unfold processBlockConnections at h
  rcases hlo : kb.2.ops.getLast? with _ | lo <;> rw [hlo] at h <;> dsimp only at h
  · exact Option.noConfusion h
  · rcases h1 : jumpiFalseStep map L (kb.2.start_pc, kb.2.end_pc) kb.2.end_pc lo.2.1 g
      with _ | g1 <;> rw [h1] at h
    · exact Option.noConfusion h
    · simp only [Option.some_bind] at h
      rcases h2 : directJumpStep map (kb.2.start_pc, kb.2.end_pc) lo.2.1
          kb.2.indirect_jump kb.2.push_used_for_jump g1 with _ | g3 <;> rw [h2] at h
      · exact Option.noConfusion h
      · simp only [Option.some_bind] at h
        rw [fallthroughStep_mem_src_ne map L _ _ _ g3 g2 h x hx,
          directJumpStep_mem_src_ne map _ _ _ _ g1 g3 h2 x hx,
          jumpiFalseStep_mem_src_ne map L _ _ _ g g1 h1 x hx]

theorem connections_fold_mem_src_ne (map : List ((Nat × Nat) × InstructionBlock))
    (L : Nat) (l : List ((Nat × Nat) × InstructionBlock)) (g g2 : CFGDag)
    (h : l.foldlM (processBlockConnections map L) g = some g2)
    (s : Nat × Nat) (hs : ∀ kb ∈ l, (kb.2.start_pc, kb.2.end_pc) ≠ s)
    (x : (Nat × Nat) × (Nat × Nat) × Edges) (hx : x.1 = s) :
    x ∈ g2.edges ↔ x ∈ g.edges := by
  induction l generalizing g with
  | nil =>
    rw [List.foldlM_nil] at h
    cases h
    rfl
  | cons kb l ih =>
    rw [List.foldlM_cons] at h
    rcases h1 : processBlockConnections map L g kb with _ | g1 <;> rw [h1] at h
    · exact Option.noConfusion h
    · simp only [Option.bind_eq_bind, Option.some_bind] at h
      rw [ih g1 h (fun y hy => hs y (List.mem_cons_of_mem _ hy)),
        processBlock_mem_src_ne map L g g1 kb h1 x
          (by rw [hx]; exact fun hc => hs kb (List.mem_cons_self _ _) hc.symm)]

theorem jumpiFalseStep_condFalse_mem (map : List ((Nat × Nat) × InstructionBlock))
    (L : Nat) (src : Nat × Nat) (e : Nat) (g g1 : CFGDag)
    (h : jumpiFalseStep map L src e 0x57 g = some g1) (t : Nat × Nat)
    (hnotin : (src, t, Edges.ConditionFalse) ∉ g.edges) :
    ((src, t, Edges.ConditionFalse) ∈ g1.edges ↔
      (e + 1 < L ∧ get_node_from_pc map (e + 1) = some t)) := by
  unfold jumpiFalseStep at h
  rw [if_pos rfl] at h
  by_cases hge : e + 1 ≥ L
  · rw [if_pos hge] at h
    cases h
    constructor
    · intro hm; exact absurd hm hnotin
    · rintro ⟨hlt, -⟩; omega
  · rw [if_neg hge] at h
    rcases hlk : get_node_from_pc map (e + 1) with _ | tn <;> rw [hlk] at h
    · exact Option.noConfusion h
    · rw [Option.map_some'] at h
      cases h
      rw [mem_add_edge_iff]
      constructor
      · rintro (heq | ⟨hm, -⟩)
        · have ht : t = tn := congrArg (fun y => y.2.1) heq
          exact ⟨by omega, by rw [ht]⟩
        · exact absurd hm hnotin
      · rintro ⟨-, hsome⟩
        have ht : tn = t := Option.some_inj.mp hsome
        exact Or.inl (by rw [ht])

theorem directJumpStep_condFalse_mem (map : List ((Nat × Nat) × InstructionBlock))
    (src : Nat × Nat) (ij pv : Option Nat) (g g3 : CFGDag)
    (h : directJumpStep map src 0x57 ij pv g = some g3) (t : Nat × Nat) :
    ((src, t, Edges.ConditionFalse) ∈ g3.edges ↔
      ((src, t, Edges.ConditionFalse) ∈ g.edges ∧
       ¬(ij = none ∧ ∃ v, pv = some v ∧ get_node_from_pc map v = some t))) := by
  unfold directJumpStep at h
  rcases ij with _ | i
  · rcases pv with _ | v
    · cases h
      simp
    · dsimp only at h
      rw [if_pos rfl] at h
      rcases hp : (if v < 65536 then some v else (none : Option Nat)) with _ | u <;>
        rw [hp] at h
      · rw [Option.none_bind, Option.none_bind] at h
        exact Option.noConfusion h
      · have hu : u = v := by
          by_cases hv : v < 65536
          · rw [if_pos hv] at hp; exact (Option.some_inj.mp hp).symm
          · rw [if_neg hv] at hp; exact Option.noConfusion hp
        subst hu
        simp only [Option.some_bind] at h
        rcases hlk : get_node_from_pc map u with _ | tn <;> rw [hlk] at h
        · rw [Option.map_none', Option.none_bind] at h
          exact Option.noConfusion h
        · simp only [Option.map_some', Option.some_bind,
            if_neg (by decide : ¬((0x57 : Nat) = 0x56))] at h
          cases h
          rw [mem_add_edge_iff]
          constructor
          · rintro (heq | ⟨hm, hne⟩)
            · simp only [Prod.mk.injEq] at heq
              exact absurd heq.2.2 (by decide)
            · refine ⟨hm, ?_⟩
              rintro ⟨-, v2, hv2, hlk2⟩
              have hv2u : v2 = u := Option.some_inj.mp hv2.symm
              rw [hv2u, hlk] at hlk2
              have htn : tn = t := Option.some_inj.mp hlk2
              exact hne ⟨rfl, htn ▸ rfl⟩
          · rintro ⟨hm, hno⟩
            refine Or.inr ⟨hm, ?_⟩
            rintro ⟨-, htn⟩
            have ht2 : t = tn := htn
            exact hno ⟨rfl, u, rfl, by rw [hlk, ht2]⟩
  · cases h
    simp

theorem processBlock_condFalse_mem (map : List ((Nat × Nat) × InstructionBlock))
    (L : Nat) (g g2 : CFGDag) (kb : (Nat × Nat) × InstructionBlock)
    (h : processBlockConnections map L g kb = some g2)
    (hfree : ∀ y ∈ g.edges, y.1 ≠ (kb.2.start_pc, kb.2.end_pc))
    (lo : Nat × Nat × Option Nat) (hlo : kb.2.ops.getLast? = some lo)
    (h57 : lo.2.1 = 0x57) (t : Nat × Nat) :
    (((kb.2.start_pc, kb.2.end_pc), t, Edges.ConditionFalse) ∈ g2.edges ↔
      (kb.2.end_pc + 1 < L ∧
       get_node_from_pc map (kb.2.end_pc + 1) = some t ∧
       ¬(kb.2.indirect_jump = none ∧ ∃ v, kb.2.push_used_for_jump = some v ∧
          get_node_from_pc map v = some t))) := by
  have hnotin : ((kb.2.start_pc, kb.2.end_pc), t, Edges.ConditionFalse) ∉ g.edges :=
    fun hm => hfree _ hm rfl
  unfold processBlockConnections at h
  rw [hlo] at h
  dsimp only at h
  rw [h57] at h
  rcases h1 : jumpiFalseStep map L (kb.2.start_pc, kb.2.end_pc) kb.2.end_pc 0x57 g
    with _ | g1 <;> rw [h1] at h
  · exact Option.noConfusion h
  · simp only [Option.some_bind] at h
    rcases h2 : directJumpStep map (kb.2.start_pc, kb.2.end_pc) 0x57
        kb.2.indirect_jump kb.2.push_used_for_jump g1 with _ | g3 <;> rw [h2] at h
    · exact Option.noConfusion h
    · simp only [Option.some_bind] at h
      have hg2 : g3 = g2 := by
        unfold fallthroughStep at h
        rw [if_neg (by decide :
          ¬(¬((0x57 : Nat) ∈ BLOCK_ENDERS_U8) ∧ isKnownOpcode 0x57 = true))] at h
        exact Option.some_inj.mp h
      subst hg2
      rw [directJumpStep_condFalse_mem map _ _ _ g1 _ h2 t,
        jumpiFalseStep_condFalse_mem map L _ _ g g1 h1 t hnotin]
      tauto

theorem get_node_from_pc_start (map : List ((Nat × Nat) × InstructionBlock))
    (hhead : ∀ kb ∈ map, (kb.2.ops.head?).map (fun o => o.1) = some kb.2.start_pc)
    (hdisj : ∀ kb ∈ map, ∀ kb2 ∈ map, ∀ o ∈ kb.2.ops, ∀ o2 ∈ kb2.2.ops,
      o.1 = o2.1 → (kb.2.start_pc, kb.2.end_pc) = (kb2.2.start_pc, kb2.2.end_pc))
    (kb2 : (Nat × Nat) × InstructionBlock) (hkb2 : kb2 ∈ map) (p : Nat)
    (hp : kb2.2.start_pc = p) :
    get_node_from_pc map p = some (kb2.2.start_pc, kb2.2.end_pc) := by
  obtain ⟨o0, ho0, ho0pc⟩ : ∃ o0, kb2.2.ops.head? = some o0 ∧ o0.1 = kb2.2.start_pc := by
    rcases hh : kb2.2.ops.head? with _ | o0
    · have := hhead kb2 hkb2
      rw [hh] at this
      exact absurd this (by simp)
    · exact ⟨o0, rfl, by
        have := hhead kb2 hkb2
        rw [hh, Option.map_some'] at this
        exact Option.some_inj.mp this⟩
  have ho0mem : o0 ∈ kb2.2.ops := by
    rcases hops : kb2.2.ops with _ | ⟨x, tail⟩
    · rw [hops] at ho0; cases ho0
    · rw [hops] at ho0
      have hxo : x = o0 := by simpa using ho0
      subst hxo
      exact List.mem_cons_self _ _
  unfold get_node_from_pc
  have hpred : (fun kb => kb.2.ops.any (fun o => decide (o.1 = p))) kb2 = true := by
    simp only [List.any_eq_true, decide_eq_true_eq]
    exact ⟨o0, ho0mem, by rw [ho0pc, hp]⟩
  rcases hf : map.find? (fun kb => kb.2.ops.any (fun o => decide (o.1 = p))) with _ | found
  · exact absurd hpred (by simpa using List.find?_eq_none.mp hf kb2 hkb2)
  · have hfound_mem : found ∈ map := List.mem_of_find?_eq_some hf
    have hfound_pred := List.find?_some hf
    simp only [List.any_eq_true, decide_eq_true_eq] at hfound_pred
    obtain ⟨o, ho, hop⟩ := hfound_pred
    have hfields := hdisj found hfound_mem kb2 hkb2 o ho o0 ho0mem
      (by rw [hop, ho0pc, hp])
    rw [hf, Option.map_some']
    rw [show (found.2.start_pc, found.2.end_pc) = (kb2.2.start_pc, kb2.2.end_pc) from hfields]

/-! ## Theorems for claim C4 (basic connections and unknown targets) -/

/-- C4 counterexample: on a map whose only block ends in a direct `JUMP` to
pc 9, which no block contains, `form_basic_connections` fails (the
`get_node_from_pc` lookup panics) instead of silently skipping the target. -/
theorem C4_counterexample :
    form_basic_connections stC4 = none ∧
    blkC4.push_used_for_jump = some 9 ∧
    get_node_from_pc stC4.map_to_instructionblock 9 = none :=
  ⟨by decide, rfl, by decide⟩

/-- C4 (amended): for every instruction-block map (non-empty, with non-empty
blocks and u16-sized push values, the other panic sources),
`form_basic_connections` fails precisely when some jump or fall-through
target demanded by a block corresponds to no instruction pc of the map; such
a target is never silently skipped. -/
theorem C4_form_basic_fails_on_missing_target (st : CFGState) (L : Nat)
    (hL : lastPcTotal st.map_to_instructionblock = some L)
    (hops : ∀ kb ∈ st.map_to_instructionblock, kb.2.ops ≠ [])
    (hv : ∀ kb ∈ st.map_to_instructionblock, kb.2.push_used_for_jump.getD 0 < 65536) :
    form_basic_connections st = none ↔
      st.map_to_instructionblock.any (fun kb => (demandedTargets L kb).any
        (fun t => (get_node_from_pc st.map_to_instructionblock t).isNone)) = true := by
  have hv2 : ∀ kb ∈ st.map_to_instructionblock, ∀ v,
      kb.2.push_used_for_jump = some v → v < 65536 := by
    intro kb hkb v hveq
    have := hv kb hkb
    rw [hveq] at this
    simpa using this
  unfold form_basic_connections
  rw [hL]
  simp only [Option.bind_eq_bind, Option.some_bind]
  rw [connections_fold_isNone_iff st.map_to_instructionblock L _ _ hops hv2]
  simp only [List.any_eq_true, Option.isNone_iff_eq_none]

/-- Witness for C4's amended theorem at the concrete state `stC4`. -/
theorem C4_form_basic_fails_on_missing_target_witness :
    form_basic_connections stC4 = none ↔
      stC4.map_to_instructionblock.any (fun kb => (demandedTargets 2 kb).any
        (fun t => (get_node_from_pc stC4.map_to_instructionblock t).isNone)) = true :=
  C4_form_basic_fails_on_missing_target stC4 2 (by decide) (by decide) (by decide)

/-! ## Theorems for claim C5 (the JUMPI fall-through edge) -/

/-- C5 counterexample: for the bytecode `60 03 57 5b 00` the block starting
at `end_pc + 1 = 3` exists and `end_pc + 1 = 3 < 4 = max pc`, yet the final
graph contains no `ConditionFalse` edge: the direct `ConditionTrue` edge to
the same ordered node pair replaced it. -/
theorem C5_counterexample :
    form_basic_connections stC5x = some gC5x ∧
    ((3, 4), blkC5xb) ∈ stC5x.map_to_instructionblock ∧
    blkC5xb.start_pc = blkC5xa.end_pc + 1 ∧
    lastPcTotal stC5x.map_to_instructionblock = some 4 ∧
    blkC5xa.end_pc + 1 < 4 ∧
    (∀ e ∈ gC5x.edges, e.2.2 ≠ Edges.ConditionFalse) :=
  ⟨by decide, by decide, by decide, by decide, by decide, by decide⟩

/-- C5 (amended): for a well-formed instruction-block map and a block ending
in `JUMPI`, the final graph holds a `ConditionFalse` edge from that block to
the block starting at `end_pc + 1` exactly when such a block exists,
`end_pc + 1` is strictly below the maximal pc, and the block's direct
true-branch target does not resolve to the same node (in which case the
`ConditionTrue` edge replaces the fall-through edge, petgraph keeping one
edge per ordered node pair). -/
theorem C5_jumpi_false_edge (st : CFGState) (g2 : CFGDag) (L : Nat)
    (h : form_basic_connections st = some g2)
    (hL : lastPcTotal st.map_to_instructionblock = some L)
    (hedges0 : st.cfg_dag.edges = [])
    (hkeys : (st.map_to_instructionblock.map
      (fun kb => (kb.2.start_pc, kb.2.end_pc))).Nodup)
    (hhead : ∀ kb ∈ st.map_to_instructionblock,
      (kb.2.ops.head?).map (fun o => o.1) = some kb.2.start_pc)
    (hdisj : ∀ kb ∈ st.map_to_instructionblock, ∀ kb2 ∈ st.map_to_instructionblock,
      ∀ o ∈ kb.2.ops, ∀ o2 ∈ kb2.2.ops,
      o.1 = o2.1 → (kb.2.start_pc, kb.2.end_pc) = (kb2.2.start_pc, kb2.2.end_pc))
    (kb : (Nat × Nat) × InstructionBlock) (hkb : kb ∈ st.map_to_instructionblock)
    (hlast : (kb.2.ops.getLast?).map (fun o => o.2.1) = some 0x57) :
    ((∃ t, ((kb.2.start_pc, kb.2.end_pc), t, Edges.ConditionFalse) ∈ g2.edges ∧
        t.1 = kb.2.end_pc + 1) ↔
      (kb.2.end_pc + 1 < L ∧
       (∃ kb2 ∈ st.map_to_instructionblock, kb2.2.start_pc = kb.2.end_pc + 1) ∧
       ¬(kb.2.indirect_jump = none ∧ ∃ v, kb.2.push_used_for_jump = some v ∧
          get_node_from_pc st.map_to_instructionblock v =
            get_node_from_pc st.map_to_instructionblock (kb.2.end_pc + 1)))) := by
  obtain ⟨l1, l2, hsplit⟩ := List.append_of_mem hkb
  obtain ⟨lo, hlo, hloc⟩ : ∃ lo, kb.2.ops.getLast? = some lo ∧ lo.2.1 = 0x57 := by
    rcases hg : kb.2.ops.getLast? with _ | lo
    · rw [hg] at hlast; exact absurd hlast (by simp)
    · rw [hg, Option.map_some'] at hlast
      exact ⟨lo, rfl, Option.some_inj.mp hlast⟩
  unfold form_basic_connections at h
  rw [hL] at h
  simp only [Option.bind_eq_bind, Option.some_bind] at h
  rw [hsplit] at h hkeys hhead hdisj ⊢
  rw [List.foldlM_append] at h
  rcases hA : l1.foldlM (processBlockConnections (l1 ++ kb :: l2) L) st.cfg_dag
    with _ | gA <;> rw [hA] at h
  · exact Option.noConfusion h
  · simp only [Option.bind_eq_bind, Option.some_bind] at h
    rw [List.foldlM_cons] at h
    rcases hB : processBlockConnections (l1 ++ kb :: l2) L gA kb with _ | gB <;>
      rw [hB] at h
    · exact Option.noConfusion h
    · simp only [Option.bind_eq_bind, Option.some_bind] at h
      have hsplitmap := hkeys
      rw [List.map_append, List.map_cons, List.nodup_append] at hsplitmap
      obtain ⟨-, nd2, hdisj12⟩ := hsplitmap
      rw [List.nodup_cons] at nd2
      have hne1 : ∀ x ∈ l1, (x.2.start_pc, x.2.end_pc) ≠ (kb.2.start_pc, kb.2.end_pc) := by
        intro x hx hcontra
        refine hdisj12 (List.mem_map_of_mem _ hx) ?_
        rw [hcontra]
        exact List.mem_cons_self _ _
      have hne2 : ∀ x ∈ l2, (x.2.start_pc, x.2.end_pc) ≠ (kb.2.start_pc, kb.2.end_pc) := by
        intro x hx hcontra
        refine nd2.1 ?_
        rw [← hcontra]
        exact List.mem_map_of_mem _ hx
      have hfree : ∀ y ∈ gA.edges, y.1 ≠ (kb.2.start_pc, kb.2.end_pc) := by
        intro y hy hcontra
        have hmm := (connections_fold_mem_src_ne (l1 ++ kb :: l2) L l1
          st.cfg_dag gA hA (kb.2.start_pc, kb.2.end_pc) hne1 y hcontra).mp hy
        rw [hedges0] at hmm
        cases hmm
      have htrans : ∀ t : Nat × Nat,
          (((kb.2.start_pc, kb.2.end_pc), t, Edges.ConditionFalse) ∈ g2.edges ↔
           ((kb.2.start_pc, kb.2.end_pc), t, Edges.ConditionFalse) ∈ gB.edges) :=
        fun t => connections_fold_mem_src_ne (l1 ++ kb :: l2) L l2 gB g2 h
          (kb.2.start_pc, kb.2.end_pc) hne2 _ rfl
      have hchar := fun t => processBlock_condFalse_mem (l1 ++ kb :: l2) L
        gA gB kb hB hfree lo hlo hloc t
      constructor
      · rintro ⟨t, hmem, ht1⟩
        obtain ⟨hlt, hlk, hnov⟩ := (hchar t).mp ((htrans t).mp hmem)
        refine ⟨hlt, ?_, ?_⟩
        · unfold get_node_from_pc at hlk
          rcases hf : (l1 ++ kb :: l2).find?
              (fun kb3 => kb3.2.ops.any (fun o => decide (o.1 = kb.2.end_pc + 1)))
            with _ | found
          · rw [hf, Option.map_none'] at hlk
            exact Option.noConfusion hlk
          · rw [hf, Option.map_some'] at hlk
            have hfields : (found.2.start_pc, found.2.end_pc) = t := Option.some_inj.mp hlk
            refine ⟨found, List.mem_of_find?_eq_some hf, ?_⟩
            have : found.2.start_pc = t.1 := congrArg Prod.fst hfields
            rw [this, ht1]
        · rintro ⟨hij, v, hpv, heqlk⟩
          exact hnov ⟨hij, v, hpv, by rw [heqlk, hlk]⟩
      · rintro ⟨hlt, ⟨kb2, hkb2, hstart⟩, hnov⟩
        have hlk := get_node_from_pc_start (l1 ++ kb :: l2) hhead hdisj kb2 hkb2
          (kb.2.end_pc + 1) hstart
        refine ⟨(kb2.2.start_pc, kb2.2.end_pc), ?_, hstart⟩
        rw [htrans (kb2.2.start_pc, kb2.2.end_pc), hchar (kb2.2.start_pc, kb2.2.end_pc)]
        refine ⟨hlt, hlk, ?_⟩
        rintro ⟨hij, v, hpv, hlkv⟩
        exact hnov ⟨hij, v, hpv, by rw [hlkv, hlk]⟩

/-- Witness for C5's amended theorem at seed scenario 3 (bytecode
`6006576001005B6002`): the fall-through edge from the `JUMPI` block `(0,2)`
to the block at pc 3 is present. -/
theorem C5_jumpi_false_edge_witness :
    ∃ t, (((0, 2), t, Edges.ConditionFalse) ∈ gC5.edges ∧ t.1 = 3) :=
  (C5_jumpi_false_edge stC5 gC5 8 (by decide) (by decide) rfl (by decide) (by decide)
      (by decide) ((0, 2), blkC5a) (by decide) (by decide)).mpr
    ⟨by decide, ⟨((3, 5), blkC5b), by decide, by decide⟩, by
      rintro ⟨-, v, hv, heq⟩
      have hv6 : v = 6 := by simp [blkC5a] at hv; omega
      subst hv6
      exact absurd heq (by decide)⟩

/-! ## Helper lemmas for the global-graph claims (C1, C2) -/

theorem lookupMapping_cons (k k2 : Nat × Nat) (v : Nat) (m : List ((Nat × Nat) × Nat)) :
    lookupMapping k ((k2, v) :: m) = if k2 = k then some v else lookupMapping k m := rfl

theorem addNodeStep_spec (c : ContractCFGData) (G G2 : GlobalGraph) (n : Nat × Nat)
    (h : addNodeStep c G n = some G2) :
    G2.nodes = G.nodes ++ (txNodeOf c n).toList ∧ G2.edges = G.edges ∧
    (mappingConsistent G → mappingConsistent G2) := by
  unfold addNodeStep at h
  unfold txNodeOf
  by_cases hm : n.1 ∈ c.executed
  · rw [if_pos hm] at h
    rw [if_pos hm]
    rcases hb : lookupBlock n c.blocks with _ | blk <;> rw [hb] at h
    · exact Option.noConfusion h
    · cases h
      refine ⟨by simp, rfl, ?_⟩
      intro hinv k
      constructor
      · intro hk
        by_cases hkey : ((c.address, blk.start_pc) : Nat × Nat) = k
        · exact ⟨_, List.mem_append_right _ (List.mem_singleton.mpr rfl), hkey⟩
        · dsimp only at hk
          rw [lookupMapping_cons, if_neg hkey] at hk
          obtain ⟨tx, htx, hke⟩ := (hinv k).mp hk
          exact ⟨tx, List.mem_append_left _ htx, hke⟩
      · rintro ⟨tx, htx, hke⟩
        dsimp only at htx ⊢
        rcases List.mem_append.mp htx with htx | htx
        · rw [lookupMapping_cons]
          by_cases hkey : ((c.address, blk.start_pc) : Nat × Nat) = k
          · rw [if_pos hkey]; rfl
          · rw [if_neg hkey]
            exact (hinv k).mpr ⟨tx, htx, hke⟩
        · have htxe : tx = ⟨c.address, blk.start_pc, renderBlock blk,
              blk.ops.any (fun o => decide (o.2.1 = 0x55))⟩ := List.mem_singleton.mp htx
          subst htxe
          rw [lookupMapping_cons, if_pos hke]
          rfl
  · rw [if_neg hm] at h
    cases h
    rw [if_neg hm]
    exact ⟨by simp, rfl, fun hinv => hinv⟩

theorem addContractNodes_spec (c : ContractCFGData) (ns : List (Nat × Nat)) :
    ∀ (G G2 : GlobalGraph), (ns.foldlM (addNodeStep c) G : Option GlobalGraph) = some G2 →
    (G2.nodes = G.nodes ++ ns.filterMap (txNodeOf c) ∧ G2.edges = G.edges ∧
     (mappingConsistent G → mappingConsistent G2)) := by
  induction ns with
  | nil =>
    intro G G2 h
    rw [List.foldlM_nil] at h
    cases h
    exact ⟨by simp, rfl, fun hinv => hinv⟩
  | cons n ns ih =>
    intro G G2 h
    rw [List.foldlM_cons] at h
    rcases h1 : addNodeStep c G n with _ | G1 <;> rw [h1] at h
    · exact Option.noConfusion h
    · simp only [Option.bind_eq_bind, Option.some_bind] at h
      obtain ⟨hn1, he1, hi1⟩ := addNodeStep_spec c G G1 n h1
      obtain ⟨hn2, he2, hi2⟩ := ih G1 G2 h
      refine ⟨?_, by rw [he2, he1], fun hinv => hi2 (hi1 hinv)⟩
      rw [hn2, hn1, List.append_assoc]
      congr 1
      cases ht : txNodeOf c n <;> simp [List.filterMap_cons, ht]

theorem buildNodes_spec (contracts : List ContractCFGData) :
    ∀ (G G2 : GlobalGraph),
    (contracts.foldlM (fun G c => addContractNodes c G) G : Option GlobalGraph) = some G2 →
    (G2.nodes = G.nodes ++ contracts.flatMap (fun c => c.nodes.filterMap (txNodeOf c)) ∧
     G2.edges = G.edges ∧ (mappingConsistent G → mappingConsistent G2)) := by
  induction contracts with
  | nil =>
    intro G G2 h
    rw [List.foldlM_nil] at h
    cases h
    exact ⟨by simp, rfl, fun hinv => hinv⟩
  | cons c cs ih =>
    intro G G2 h
    rw [List.foldlM_cons] at h
    rcases h1 : addContractNodes c G with _ | G1 <;> rw [h1] at h
    · exact Option.noConfusion h
    · simp only [Option.bind_eq_bind, Option.some_bind] at h
      obtain ⟨hn1, he1, hi1⟩ := addContractNodes_spec c c.nodes G G1 h1
      obtain ⟨hn2, he2, hi2⟩ := ih G1 G2 h
      refine ⟨?_, by rw [he2, he1], fun hinv => hi2 (hi1 hinv)⟩
      rw [hn2, hn1, List.append_assoc, List.flatMap_cons]

theorem foldInternal_spec (c : ContractCFGData) (es : List ((Nat × Nat) × (Nat × Nat) × Edges)) :
    ∀ G : GlobalGraph,
    (es.foldl (addInternalEdgeStep c) G).nodes = G.nodes ∧
    (es.foldl (addInternalEdgeStep c) G).node_mapping = G.node_mapping ∧
    ∃ ne, (es.foldl (addInternalEdgeStep c) G).edges = G.edges ++ ne ∧
      ∀ x ∈ ne, ∃ s, x.2.2 = TransactionEdge.Internal s := by
  induction es with
  | nil => intro G; exact ⟨rfl, rfl, [], by simp, by simp⟩
  | cons e es ih =>
    intro G
    rw [List.foldl_cons]
    obtain ⟨hn, hm, ne, he, hne⟩ := ih (addInternalEdgeStep c G e)
    have hstep : (addInternalEdgeStep c G e).nodes = G.nodes ∧
        (addInternalEdgeStep c G e).node_mapping = G.node_mapping ∧
        ∃ ne0, (addInternalEdgeStep c G e).edges = G.edges ++ ne0 ∧
          ∀ x ∈ ne0, ∃ s, x.2.2 = TransactionEdge.Internal s := by
      unfold addInternalEdgeStep
      by_cases hx : e.1.1 ∈ c.executed ∧ e.2.1.1 ∈ c.executed
      · rw [if_pos hx]
        rcases hl1 : lookupMapping (c.address, e.1.1) G.node_mapping with _ | i <;>
          rcases hl2 : lookupMapping (c.address, e.2.1.1) G.node_mapping with _ | j
        · exact ⟨rfl, rfl, [], by simp, by simp⟩
        · exact ⟨rfl, rfl, [], by simp, by simp⟩
        · exact ⟨rfl, rfl, [], by simp, by simp⟩
        · exact ⟨rfl, rfl, [(i, j, TransactionEdge.Internal e.2.2.debugStr)], rfl, by
            intro x hx2
            rw [List.mem_singleton.mp hx2]
            exact ⟨e.2.2.debugStr, rfl⟩⟩
      · rw [if_neg hx]
        exact ⟨rfl, rfl, [], by simp, by simp⟩
    obtain ⟨hsn, hsm, ne0, hse, hne0⟩ := hstep
    refine ⟨by rw [hn, hsn], by rw [hm, hsm], ne0 ++ ne, ?_, ?_⟩
    · rw [he, hse, List.append_assoc]
    · intro x hx2
      rcases List.mem_append.mp hx2 with hx2 | hx2
      · exact hne0 x hx2
      · exact hne x hx2

theorem internalPhase_spec (contracts : List ContractCFGData) :
    ∀ G : GlobalGraph,
    (contracts.foldl (fun G c => addContractInternalEdges c G) G).nodes = G.nodes ∧
    (contracts.foldl (fun G c => addContractInternalEdges c G) G).node_mapping =
      G.node_mapping ∧
    ∃ ne, (contracts.foldl (fun G c => addContractInternalEdges c G) G).edges =
        G.edges ++ ne ∧
      ∀ x ∈ ne, ∃ s, x.2.2 = TransactionEdge.Internal s := by
  induction contracts with
  | nil => intro G; exact ⟨rfl, rfl, [], by simp, by simp⟩
  | cons c cs ih =>
    intro G
    rw [List.foldl_cons]
    obtain ⟨hn, hm, ne, he, hne⟩ := ih (addContractInternalEdges c G)
    obtain ⟨hsn, hsm, ne0, hse, hne0⟩ := foldInternal_spec c c.edges G
    refine ⟨by rw [hn]; exact hsn, by rw [hm]; exact hsm, ne0 ++ ne, ?_, ?_⟩
    · rw [he]
      show (addContractInternalEdges c G).edges ++ ne = G.edges ++ (ne0 ++ ne)
      rw [show (addContractInternalEdges c G).edges = G.edges ++ ne0 from hse,
        List.append_assoc]
    · intro x hx2
      rcases List.mem_append.mp hx2 with hx2 | hx2
      · exact hne0 x hx2
      · exact hne x hx2

theorem addExternalEdges_eq (ces : List CallEdge) :
    ∀ G : GlobalGraph,
    (addExternalEdges ces G).nodes = G.nodes ∧
    (addExternalEdges ces G).node_mapping = G.node_mapping ∧
    (addExternalEdges ces G).edges = G.edges ++ ces.filterMap (extEdgeOf G.node_mapping) := by
  induction ces with
  | nil => intro G; exact ⟨rfl, rfl, by simp [addExternalEdges]⟩
  | cons ce ces ih =>
    intro G
    have hco : addExternalEdges (ce :: ces) G = addExternalEdges ces (addExternalEdgeStep G ce) :=
      rfl
    have hstep : (addExternalEdgeStep G ce).nodes = G.nodes ∧
        (addExternalEdgeStep G ce).node_mapping = G.node_mapping ∧
        (addExternalEdgeStep G ce).edges = G.edges ++ (extEdgeOf G.node_mapping ce).toList := by
      unfold addExternalEdgeStep extEdgeOf
      rcases hl1 : lookupMapping (ce.from_addr, ce.from_pc) G.node_mapping with _ | i <;>
        rcases hl2 : lookupMapping (ce.to_addr, 0) G.node_mapping with _ | j <;>
          exact ⟨rfl, rfl, by simp⟩
    obtain ⟨hn, hm, he⟩ := ih (addExternalEdgeStep G ce)
    refine ⟨by rw [hco, hn, hstep.1], by rw [hco, hm, hstep.2.1], ?_⟩
    rw [hco, he, hstep.2.2, hstep.2.1, List.append_assoc]
    congr 1
    cases ht : extEdgeOf G.node_mapping ce <;> simp [List.filterMap_cons, ht]

/-! ## Theorems for the global-graph claims (C1, C2) -/

/-- C1 counterexample: the only observed pc (3) of contract `cC1` falls
inside its block `[0,5]`, yet `build_global_transaction_graph` emits no
`TxNode` at all, because the code tests only membership of the block's
`start_pc` in the executed-PC set. -/
theorem C1_counterexample :
    (build_global_transaction_graph [cC1] []).map (fun G => G.nodes.length) = some 0 ∧
    3 ∈ cC1.executed ∧ (0, 5) ∈ cC1.nodes ∧ blkC1.start_pc ≤ 3 ∧ 3 ≤ blkC1.end_pc :=
  ⟨by decide, by decide, by decide, by decide, by decide⟩

/-- C1 (amended): the G-CFG composer emits, for each contract and each graph
node, exactly one `TxNode` if and only if the node's `start_pc` itself is in
the contract's executed-PC set (membership of other pcs of the block's range
is not consulted): the emitted node list is exactly the concatenation over
contracts of the per-node `txNodeOf` filter. -/
theorem C1_global_nodes (contracts : List ContractCFGData) (ces : List CallEdge)
    (G : GlobalGraph) (h : build_global_transaction_graph contracts ces = some G) :
    G.nodes = contracts.flatMap (fun c => c.nodes.filterMap (txNodeOf c)) := by
  unfold build_global_transaction_graph at h
  rcases h1 : (contracts.foldlM (fun G c => addContractNodes c G)
      (⟨[], [], []⟩ : GlobalGraph) : Option GlobalGraph) with _ | G1 <;> rw [h1] at h
  · exact Option.noConfusion h
  · simp only [Option.bind_eq_bind, Option.some_bind, Option.pure_def] at h
    have hG := Option.some_inj.mp h
    obtain ⟨hn1, -, -⟩ := buildNodes_spec contracts _ G1 h1
    obtain ⟨hn2, -, -⟩ := internalPhase_spec contracts G1
    obtain ⟨hn3, -, -⟩ :=
      addExternalEdges_eq ces (contracts.foldl (fun G c => addContractInternalEdges c G) G1)
    rw [← hG, hn3, hn2, hn1]
    simp

/-- Witness for C1's amended theorem at the concrete contract `cW`. -/
theorem C1_global_nodes_witness :
    GW1.nodes = [cW].flatMap (fun c => c.nodes.filterMap (txNodeOf c)) :=
  C1_global_nodes [cW] [] GW1 (by decide)

/-- C2 counterexample: the caller's block `[0,5]` of `cC2a` contains the call
site `from_pc = 3` and is emitted as a node, the callee entry node of `cC2b`
is emitted too, yet the call edge is dropped (no `External` edge and no
counter), because the lookup is by the exact key `(from_addr, from_pc)` and
`3` is not the block's `start_pc`. -/
theorem C2_counterexample :
    (build_global_transaction_graph [cC2a, cC2b] [ceC2]).map (fun G => G.edges) =
      some [] ∧
    (build_global_transaction_graph [cC2a, cC2b] [ceC2]).map
      (fun G => (lookupMapping (ceC2.from_addr, 0) G.node_mapping).isSome) = some true ∧
    (build_global_transaction_graph [cC2a, cC2b] [ceC2]).map
      (fun G => (lookupMapping (ceC2.to_addr, 0) G.node_mapping).isSome) = some true ∧
    blkC2a.start_pc ≤ ceC2.from_pc ∧ ceC2.from_pc ≤ blkC2a.end_pc ∧
    ceC2.from_pc ∈ cC2a.executed :=
  ⟨by decide, by decide, by decide, by decide, by decide, by decide⟩

/-- C2 (amended): for every trace-derived call edge, the composer emits an
`External(call-kind)` edge exactly when the node mapping holds the exact keys
`(from_addr, from_pc)` and `(to_addr, 0)` — i.e. when `TxNode`s with those
exact `(address, pc)` pairs were emitted; otherwise the call edge is silently
dropped, with no counting.  The external edges are exactly
`ces.filterMap (extEdgeOf G.node_mapping)`, appended after the internal
edges. -/
theorem C2_external_call_edges (contracts : List ContractCFGData) (ces : List CallEdge)
    (G : GlobalGraph) (h : build_global_transaction_graph contracts ces = some G) :
    (∀ a p, (lookupMapping (a, p) G.node_mapping).isSome ↔
       ∃ tx ∈ G.nodes, tx.contract_address = a ∧ tx.pc = p) ∧
    ∃ eint, (∀ x ∈ eint, ∃ s, x.2.2 = TransactionEdge.Internal s) ∧
      G.edges = eint ++ ces.filterMap (extEdgeOf G.node_mapping) := by
  unfold build_global_transaction_graph at h
  rcases h1 : (contracts.foldlM (fun G c => addContractNodes c G)
      (⟨[], [], []⟩ : GlobalGraph) : Option GlobalGraph) with _ | G1 <;> rw [h1] at h
  · exact Option.noConfusion h
  · simp only [Option.bind_eq_bind, Option.some_bind, Option.pure_def] at h
    have hG := Option.some_inj.mp h
    obtain ⟨hn1, he1, hi1⟩ := buildNodes_spec contracts _ G1 h1
    obtain ⟨hn2, hm2, ne, he2, hne⟩ := internalPhase_spec contracts G1
    obtain ⟨hn3, hm3, he3⟩ :=
      addExternalEdges_eq ces (contracts.foldl (fun G c => addContractInternalEdges c G) G1)
    have hinv1 : mappingConsistent G1 := by
      apply hi1
      intro k
      simp [lookupMapping]
    have hGn : G.nodes = G1.nodes := by rw [← hG, hn3, hn2]
    have hGm : G.node_mapping = G1.node_mapping := by rw [← hG, hm3, hm2]
    constructor
    · intro a p
      rw [hGm, hGn]
      constructor
      · intro hk
        obtain ⟨tx, htx, hke⟩ := (hinv1 (a, p)).mp hk
        rw [Prod.mk.injEq] at hke
        exact ⟨tx, htx, hke.1, hke.2⟩
      · rintro ⟨tx, htx, ha, hp⟩
        exact (hinv1 (a, p)).mpr ⟨tx, htx, by rw [ha, hp]⟩
    · refine ⟨ne, hne, ?_⟩
      rw [← hG, he3, he2, he1]
      rw [show (contracts.foldl (fun G c => addContractInternalEdges c G) G1).node_mapping =
        G.node_mapping from by rw [hGm, hm2]]
      simp only [List.nil_append]
      rw [hG]

/-- Witness for C2's amended theorem at the concrete contracts `cW`, `cW2`
and call edge `ceW`, whose `from_pc` equals the caller block's `start_pc`. -/
theorem C2_external_call_edges_witness :
    (∀ a p, (lookupMapping (a, p) GW.node_mapping).isSome ↔
       ∃ tx ∈ GW.nodes, tx.contract_address = a ∧ tx.pc = p) ∧
    ∃ eint, (∀ x ∈ eint, ∃ s, x.2.2 = TransactionEdge.Internal s) ∧
      GW.edges = eint ++ [ceW].filterMap (extEdgeOf GW.node_mapping) :=
  C2_external_call_edges [cW, cW2] [ceW] GW (by decide)

/-! ## Theorems for claim C8 (trace-file parsing) -/

theorem mapM_isSome {α β : Type} (f : α → Option β) (xs : List α) :
    (xs.mapM f).isSome = xs.all (fun x => (f x).isSome) := by
  induction xs with
  | nil => rfl
  | cons a l ih =>
    rw [List.mapM_cons]
    rcases hf : f a with _ | b
    · simp [hf]
    · rcases hm : l.mapM f with _ | bs <;> rw [hm] at ih <;> simp [hf, hm, ← ih]

theorem decodeReqField_isSome {α : Type} (name : String) (fs : List (String × Json))
    (dec : Json → Option α) :
    (decodeReqField name fs dec).isSome = reqFieldShape name fs (fun v => (dec v).isSome) := by
  unfold decodeReqField reqFieldShape
  rcases fieldOccs name fs with _ | ⟨v, _ | ⟨w, rest⟩⟩ <;> simp

theorem decodeTraceSteps_isSome (j : Json) :
    (decodeTraceSteps j).isSome = stepArrayShape j := by
  cases j with
  | arr xs => exact mapM_isSome decodeTraceStep xs
  | null => rfl
  | bool b => rfl
  | num n => rfl
  | str s => rfl
  | obj fs => rfl

theorem decodeTraceTransaction_isSome (j : Json) :
    (decodeTraceTransaction j).isSome = traceTransactionShape j := by
  cases j with
  | obj fs =>
    unfold decodeTraceTransaction traceTransactionShape
    dsimp only
    rw [← decodeReqField_isSome "gas" fs decodeU64,
      ← decodeReqField_isSome "failed" fs decodeBool,
      ← decodeReqField_isSome "returnValue" fs decodeString]
    have hsl : reqFieldShape "structLogs" fs (fun v =>
        match v with
        | Json.arr xs => xs.all (fun x => (decodeTraceStep x).isSome)
        | _ => false) = (decodeReqField "structLogs" fs decodeTraceSteps).isSome := by
      rw [decodeReqField_isSome]
      congr 1
      funext v
      rw [decodeTraceSteps_isSome]
      cases v <;> rfl
    rw [hsl]
    rcases h1 : decodeReqField "gas" fs decodeU64 with _ | g <;>
      rcases h2 : decodeReqField "failed" fs decodeBool with _ | fl <;>
        rcases h3 : decodeReqField "returnValue" fs decodeString with _ | rv <;>
          rcases h4 : decodeReqField "structLogs" fs decodeTraceSteps with _ | logs <;>
            simp [h1, h2, h3, h4]
  | null => rfl
  | bool b => rfl
  | num n => rfl
  | str s => rfl
  | arr xs => rfl

/-- C8: `parse_trace_file` succeeds exactly when the file content is valid
JSON of one of the two accepted shapes — a JSON array of `TraceStep` objects
or an object `{gas, failed, returnValue, structLogs: [...]}` — and returns
the decoded array in the first case and the decoded `structLogs` list in the
second; any other content (including an unreadable file or invalid JSON,
modelled as `none`) yields an error. -/
theorem C8_parse_trace_file (o : Option Json) :
    ((parse_trace_file o).isSome = true ↔
      ∃ j, o = some j ∧ (stepArrayShape j = true ∨ traceTransactionShape j = true)) ∧
    (parse_trace_file o = none ∨
      ∃ j steps, o = some j ∧ parse_trace_file o = some steps ∧
        (decodeTraceSteps j = some steps ∨
         (decodeTraceSteps j = none ∧ ∃ tt, decodeTraceTransaction j = some tt ∧
            steps = tt.struct_logs))) := by
  cases o with
  | none => exact ⟨by simp [parse_trace_file], Or.inl rfl⟩
  | some j =>
    constructor
    · rw [show parse_trace_file (some j) = (match decodeTraceSteps j with
        | some steps => some steps
        | none => (decodeTraceTransaction j).map (fun t => t.struct_logs)) from rfl]
      rcases h1 : decodeTraceSteps j with _ | steps
      · rcases h2 : decodeTraceTransaction j with _ | tt
        · have e1 : stepArrayShape j = false := by rw [← decodeTraceSteps_isSome, h1]; rfl
          have e2 : traceTransactionShape j = false := by
            rw [← decodeTraceTransaction_isSome, h2]; rfl
          simp [e1, e2]
        · have e2 : traceTransactionShape j = true := by
            rw [← decodeTraceTransaction_isSome, h2]; rfl
          simp [e2]
      · have e1 : stepArrayShape j = true := by rw [← decodeTraceSteps_isSome, h1]; rfl
        simp [e1]
    · rcases h1 : decodeTraceSteps j with _ | steps
      · rcases h2 : decodeTraceTransaction j with _ | tt
        · exact Or.inl (by simp [parse_trace_file, h1, h2])
        · exact Or.inr ⟨j, tt.struct_logs, rfl, by simp [parse_trace_file, h1, h2],
            Or.inr ⟨h1, tt, h2, rfl⟩⟩
      · exact Or.inr ⟨j, steps, rfl, by simp [parse_trace_file, h1], Or.inl h1⟩

end MevCfg

